import Mathlib

/-! # Shallow embedding of `src/emulation.c`

The OS-trap layer of the emulated machine: the register file, the 64K memory
image, the suspend/resume state and the trap handlers, written as pure
functions on an explicit `Machine` state.

* `uint8_t` values are naturals reduced `% 256`, `uint16_t` values naturals
  reduced `% 65536`, at the places where the C code converts.
* `die` and a failed `check` end the process: they are the `Outcome.fatal`
  results, which carry the machine state at the moment of the failure.
* `M6502_run` belongs to the instruction engine; the embedding stops where
  control enters it (`Outcome.run`).
-/

namespace Emulation

/-! ## Data model -/

/-- The anonymous enum of `mpu_state`. -/
inductive MpuState where
  | ms_running
  | ms_osword_input_line_pending
  | ms_osrdch_pending
  deriving DecidableEq, Repr

/-- The register file `M6502_Registers`: `a`, `x`, `y`, `p`, `s` are `uint8_t`
and `pc` is `uint16_t`. -/
structure Registers where
  a : Nat
  x : Nat
  y : Nat
  p : Nat
  s : Nat
  pc : Nat

/-- The file-level state of `emulation.c`, together with the bytes handed to
`driver_oswrch` so far (`driver`, oldest first). The memory image
`mpu_memory` has the cells `0 .. 0xffff`. -/
structure Machine where
  mpu_registers : Registers
  mpu_memory : Nat → Nat
  vdu_variables : Nat → Int
  mpu_state : MpuState
  driver : List Nat

/-- The fatal exits of the file, one constructor for each `check`/`die`
message (and one for the `exit(EXIT_FAILURE)` of `callback_irq`). -/
inductive Fatal where
  /-- Message: internal error: write_u16 at top of memory. -/
  | write_u16_top
  /-- Message: internal error: read_u16 at top of memory. -/
  | read_u16_top
  /-- Message: error: unexpected read at address .., data ... -/
  | abort_read (address data : Nat)
  /-- Message: error: unexpected write at address .., data ... -/
  | abort_write (address data : Nat)
  /-- Message: error: unexpected call at address .., data ... -/
  | abort_call (address data : Nat)
  /-- Message: internal error: unsupported VDU variable .. read. -/
  | unsupported_vdu_variable (i : Nat)
  /-- Message: internal error: unsupported OSBYTE. -/
  | unsupported_osbyte
  /-- Message: internal error: command tail is too near top of memory. -/
  | command_tail_near_top
  /-- Message: internal error: too many *s on OSCLI. -/
  | too_many_stars
  /-- Message: internal error: unsupported OSWORD. -/
  | unsupported_osword
  /-- Message: internal error: no BASIC version selected. -/
  | no_basic_version
  /-- Message: internal error: invalid ROM bank .. selected. -/
  | invalid_rom_bank (data : Nat)
  /-- The report of `callback_irq`: the message bytes and the error number. -/
  | guest_error (message : List Nat) (error_num : Nat)
  /-- Message: internal error: attempt to return multiple characters from OSRDCH. -/
  | multiple_characters
  /-- Message: internal error: emulated machine isn't waiting for OSRDCH. -/
  | not_waiting_for_osrdch
  /-- Message: internal error: emulated machine isn't waiting for OSWORD 0. -/
  | not_waiting_for_osword0
  /-- Message: internal error: OSWORD 0 block is too near top of memory. -/
  | osword0_block_near_top
  /-- Message: internal error: OSWORD 0 buffer is too near top of memory. -/
  | osword0_buffer_near_top
  /-- Message: error: line too long. -/
  | line_too_long
  deriving DecidableEq, Repr

/-- How a handler or a host entry point hands control on. -/
inductive Outcome where
  /-- A call handler returns the next program address to the engine. -/
  | next (address : Nat) (m : Machine)
  /-- Control enters `M6502_run` with this machine state. -/
  | run (m : Machine)
  /-- The handler leaves through `longjmp(mpu_env, 1)`: back to the host. -/
  | suspend (m : Machine)
  /-- The process is terminated by `die`, a failed `check`, or `exit`. -/
  | fatal (e : Fatal) (m : Machine)
  /-- A loop of the handler is still running when the fuel of its model is
  used up. -/
  | diverge (m : Machine)

/-- The machine state carried by an outcome. -/
def Outcome.machine : Outcome → Machine
  | .next _ m => m
  | .run m => m
  | .suspend m => m
  | .fatal _ m => m
  | .diverge m => m

/-- Whether the outcome is a fatal exit. -/
def Outcome.isFatal : Outcome → Bool
  | .fatal _ _ => true
  | _ => false

/-- The next program address, when the handler returned one. -/
def Outcome.address : Outcome → Option Nat
  | .next a _ => some a
  | _ => none

/-- A `const char *` argument: the bytes of the string before its
terminating NUL, so none of them is zero. -/
structure CString where
  bytes : List Nat
  valid : ∀ b ∈ bytes, 0 < b ∧ b < 256

/-- The C library `strlen`. -/
def strlen (s : CString) : Nat := s.bytes.length

/-- The element `s[i]` of a string; the terminating NUL past the end. -/
def CString.char (s : CString) (i : Nat) : Nat := s.bytes.getD i 0

/-! ## Platform constants

`cr` and `lf` come from a header that is not part of the translated file. -/

/-- Modelled from the spec: the carriage-return byte `cr` (its declaration is
outside `emulation.c`); ASCII 13. -/
def cr : Nat := 0x0d

/-- Modelled from the spec: the line-feed byte `lf` (its declaration is
outside `emulation.c`); ASCII 10. -/
def lf : Nat := 0x0a

/-- The constant `transient_code`. -/
def transient_code : Nat := 0x900

/-- The constant `service_code`. -/
def service_code : Nat := 0xb00

/-- The enum constant `os_text_pointer`. -/
def os_text_pointer : Nat := 0xf2

/-- The enum constant `romsel_copy`. -/
def romsel_copy : Nat := 0xf4

/-- The enum constant `brkv`. -/
def brkv : Nat := 0x202

/-- The enum constant `wrchv`. -/
def wrchv : Nat := 0x20e

/-- The enum constant `fake_irq_handler`. -/
def fake_irq_handler : Nat := 0xf000

/-- The enum constant `oswrch`. -/
def oswrch : Nat := 0xffee

/-- The bank number `bank_editor_a`; `callback_oscli` asserts it is 0. -/
def bank_editor_a : Nat := 0

/-- The bank number `bank_editor_b`; `callback_oscli` asserts it is 1. -/
def bank_editor_b : Nat := 1

/-- The constants and tables that `emulation.c` takes from headers outside
the translated file (`roms.h`, `config.h`, `emulation.h`): they are
parameters of the embedding. `rom_basic v` is the image `rom_basic[v]`, and
`basic_version` is `config.basic_version` (`-1` when none is selected). -/
structure Platform where
  bank_basic : Nat
  rom_size : Nat
  rom_editor_a : Nat → Nat
  rom_editor_b : Nat → Nat
  rom_basic : Nat → Nat → Nat
  basic_version : Int
  page : Nat
  himem : Nat

/-! ## Memory and register primitives -/

/-- The assignment `mpu_memory[address] = data`, which converts `data` to
`uint8_t`. -/
def poke (mem : Nat → Nat) (address data : Nat) : Nat → Nat :=
  fun a => if a = address then data % 256 else mem a

/-- The run of assignments `*p++ = b` for the bytes `b` of a list, starting
with `p = &mpu_memory[address]`. -/
def write_bytes (mem : Nat → Nat) (address : Nat) : List Nat → Nat → Nat
  | [] => mem
  | b :: bs => write_bytes (poke mem address b) (address + 1) bs

/-- The C library `memcpy(&mpu_memory[dst], src, n)`. -/
def memcpy (mem : Nat → Nat) (dst : Nat) (src : Nat → Nat) (n : Nat) : Nat → Nat :=
  fun a => if dst ≤ a ∧ a < dst + n then src (a - dst) else mem a

/-- The function `mpu_write_u16`; `none` is the failed `check`. -/
def mpu_write_u16 (mem : Nat → Nat) (address data : Nat) : Option (Nat → Nat) :=
  let address := address % 65536
  let data := data % 65536
  if address = 0xffff then none
  else some (poke (poke mem address (data &&& 0xff)) (address + 1) ((data >>> 8) &&& 0xff))

/-- The function `mpu_read_u16`; `none` is the failed `check`. -/
def mpu_read_u16 (mem : Nat → Nat) (address : Nat) : Option Nat :=
  let address := address % 65536
  if address = 0xffff then none
  else some (((mem (address + 1) <<< 8) ||| mem address) % 65536)

/-- The function `mpu_clear_carry`: `p &= ~(1<<0)` on a `uint8_t`. -/
def mpu_clear_carry (m : Machine) : Machine :=
  { m with mpu_registers := { m.mpu_registers with p := m.mpu_registers.p &&& 0xfe } }

/-- The external `driver_oswrch`: the driver receives one byte. -/
def driver_oswrch (c : Nat) (m : Machine) : Machine :=
  { m with driver := m.driver ++ [c] }

/-- The expression `(mpu_registers.y << 8) | mpu_registers.x` as stored in a
`uint16_t`. -/
def yx (r : Registers) : Nat := ((r.y <<< 8) ||| r.x) % 65536

/-- The function `pull_rts_target`. -/
def pull_rts_target (m : Machine) : Outcome :=
  match mpu_read_u16 m.mpu_memory (0x101 + m.mpu_registers.s) with
  | none => .fatal .read_u16_top m
  | some address =>
    let regs1 := { m.mpu_registers with s := (m.mpu_registers.s + 2) % 256 }
    .next ((address + 1) % 65536) { m with mpu_registers := regs1 }

/-- The function `mpu_run`, up to the call of `M6502_run`: `setjmp` returns 0
when it is called directly, so the state becomes `ms_running` and the engine
is entered. -/
def mpu_run (m : Machine) : Outcome :=
  .run { m with mpu_state := .ms_running }

/-- The statement `mpu_registers.pc = pull_rts_target(); mpu_run();` that ends
both resume entry points. -/
def resume (m : Machine) : Outcome :=
  match pull_rts_target m with
  | .next address m1 =>
    mpu_run { m1 with mpu_registers := { m1.mpu_registers with pc := address } }
  | o => o

/-! ## Call handlers -/

/-- The function `callback_abort_read`. -/
def callback_abort_read (address data : Nat) (m : Machine) : Outcome :=
  .fatal (.abort_read address data) m

/-- The function `callback_abort_write`. -/
def callback_abort_write (address data : Nat) (m : Machine) : Outcome :=
  .fatal (.abort_write address data) m

/-- The function `callback_abort_call`. -/
def callback_abort_call (address data : Nat) (m : Machine) : Outcome :=
  .fatal (.abort_call address data) m

/-- The function `callback_osrdch`. -/
def callback_osrdch (m : Machine) : Outcome :=
  .suspend { m with mpu_state := .ms_osrdch_pending }

/-- The function `callback_oswrch`. -/
def callback_oswrch (m : Machine) : Outcome :=
  pull_rts_target (driver_oswrch m.mpu_registers.a m)

/-- The function `callback_osnewl`. -/
def callback_osnewl (m : Machine) : Outcome :=
  pull_rts_target (driver_oswrch cr (driver_oswrch lf m))

/-- The function `callback_osasci`. -/
def callback_osasci (m : Machine) : Outcome :=
  if m.mpu_registers.a = cr then callback_osnewl m else callback_oswrch m

/-- The function `callback_osbyte_return_x`. -/
def callback_osbyte_return_x (x : Nat) (m : Machine) : Outcome :=
  pull_rts_target { m with mpu_registers := { m.mpu_registers with x := x % 256 } }

/-- The function `callback_osbyte_return_u16`; its parameter is a `uint16_t`. -/
def callback_osbyte_return_u16 (value : Nat) (m : Machine) : Outcome :=
  let value := value % 65536
  let regs1 := { m.mpu_registers with x := value &&& 0xff, y := (value >>> 8) &&& 0xff }
  pull_rts_target { m with mpu_registers := regs1 }

/-- Conversion of an `int` to `uint8_t`. -/
def int_to_u8 (v : Int) : Nat := (v % 256).toNat

/-- The function `callback_osbyte_read_vdu_variable`. -/
def callback_osbyte_read_vdu_variable (m : Machine) : Outcome :=
  let i := m.mpu_registers.x % 256
  if m.vdu_variables i = -1 then .fatal (.unsupported_vdu_variable i) m
  else
    let j := (i + 1) % 256
    if m.vdu_variables j = -1 then .fatal (.unsupported_vdu_variable j) m
    else
      let regs1 := { m.mpu_registers with
        x := int_to_u8 (m.vdu_variables i), y := int_to_u8 (m.vdu_variables j) }
      pull_rts_target { m with mpu_registers := regs1 }

/-- The function `callback_osbyte`. -/
def callback_osbyte (c : Platform) (m : Machine) : Outcome :=
  if m.mpu_registers.a = 0x03 then pull_rts_target m
  else if m.mpu_registers.a = 0x0f then pull_rts_target m
  else if m.mpu_registers.a = 0x7c then pull_rts_target m
  else if m.mpu_registers.a = 0x7e then callback_osbyte_return_x 0 m
  else if m.mpu_registers.a = 0x83 then callback_osbyte_return_u16 c.page m
  else if m.mpu_registers.a = 0x84 then callback_osbyte_return_u16 c.himem m
  else if m.mpu_registers.a = 0x86 then callback_osbyte_return_u16 0 m
  else if m.mpu_registers.a = 0x8a then pull_rts_target m
  else if m.mpu_registers.a = 0xa0 then callback_osbyte_read_vdu_variable m
  else .fatal .unsupported_osbyte m

/-- The code that `enter_basic` writes at `transient_code`:
`LDX #bank_basic; STX romsel_copy; STX &FE30; JMP &8000`. -/
def enter_basic_code (c : Platform) : List Nat :=
  [0xa2, c.bank_basic, 0x86, romsel_copy, 0x8e, 0x30, 0xfe, 0x4c, 0x00, 0x80]

/-- The function `enter_basic`. -/
def enter_basic (c : Platform) (m : Machine) : Outcome :=
  let regs1 := { m.mpu_registers with a := 1, x := 0, y := 0 }
  let mem1 := write_bytes m.mpu_memory transient_code (enter_basic_code c)
  .next transient_code { m with mpu_registers := regs1, mpu_memory := mem1 }

/-- How the loop of `callback_oscli` that skips the leading stars ends. -/
inductive SkipResult where
  /-- The loop is left with this value in register Y. -/
  | found (y : Nat)
  /-- Register Y wrapped to 0: the `check` in the loop body failed. -/
  | wrapped
  /-- The fuel of the model is used up. -/
  | out_of_fuel
  deriving DecidableEq, Repr

/-- The loop `while (mpu_memory[yx + y] == 0x2a) { ++y; check(y != 0); }` of
`callback_oscli`, on the `uint8_t` register Y. -/
def skip_stars (mem : Nat → Nat) (yx : Nat) : Nat → Nat → SkipResult
  | 0, _ => .out_of_fuel
  | fuel + 1, y =>
    if mem (yx + y) = 0x2a then
      if (y + 1) % 256 = 0 then .wrapped else skip_stars mem yx fuel ((y + 1) % 256)
    else .found y

/-- The test `memcmp(&mpu_memory[address], s, n) == 0` for the `n` bytes `s`. -/
def memcmp_eq (mem : Nat → Nat) : Nat → List Nat → Bool
  | _, [] => true
  | address, b :: bs => decide (mem address = b) && memcmp_eq mem (address + 1) bs

/-- The bytes of the keyword BASIC. -/
def keyword_basic : List Nat := [0x42, 0x41, 0x53, 0x49, 0x43]

/-- The bytes of the message text: Bad command. -/
def bad_command : List Nat :=
  [0x42, 0x61, 0x64, 0x20, 0x63, 0x6f, 0x6d, 0x6d, 0x61, 0x6e, 0x64]

/-- The instructions that `callback_oscli` writes at `service_code`, up to and
including the error code that follows the BRK. -/
def service_loop_code : List Nat :=
  [0x86, romsel_copy, 0x8e, 0x30, 0xfe, 0x20, 0x03, 0x80, 0xa6, romsel_copy,
   0xca, 0x10, 256 - 13, 0xc9, 0, 0xd0, 1, 0x60, 0x00, 0xfe]

/-- The function `callback_oscli`. The `strcpy` of the message writes its
bytes and the terminating NUL. The comparison with the keyword follows the
source as long as its five bytes lie inside the image, that is for
yx + y + 5 <= 0x10000; beyond that the `memcmp` of the source reads past the
end of `mpu_memory`, and the cells that this definition reads there stand for
nothing in the source. -/
def callback_oscli (c : Platform) (m : Machine) : Outcome :=
  let yx := yx m.mpu_registers
  if ¬ yx ≤ 0xff00 then .fatal .command_tail_near_top m
  else
    let mem0 := poke m.mpu_memory os_text_pointer m.mpu_registers.x
    let mem1 := poke mem0 (os_text_pointer + 1) m.mpu_registers.y
    let regs1 := { m.mpu_registers with a := 4, x := bank_editor_b, y := 0 }
    let m1 := { m with mpu_memory := mem1, mpu_registers := regs1 }
    match skip_stars mem1 yx 256 0 with
    | .out_of_fuel => .diverge m1
    | .wrapped => .fatal .too_many_stars m1
    | .found y =>
      let m2 := { m1 with mpu_registers := { regs1 with y := y } }
      if memcmp_eq mem1 (yx + y) keyword_basic then enter_basic c m2
      else
        let mem3 := write_bytes mem1 service_code (service_loop_code ++ bad_command ++ [0])
        .next service_code { m2 with mpu_memory := mem3 }

/-- The function `callback_osword_input_line`. -/
def callback_osword_input_line (m : Machine) : Outcome :=
  .suspend { m with mpu_state := .ms_osword_input_line_pending }

/-- The function `callback_osword_read_io_memory`. -/
def callback_osword_read_io_memory (m : Machine) : Outcome :=
  let yx := yx m.mpu_registers
  match mpu_read_u16 m.mpu_memory yx with
  | none => .fatal .read_u16_top m
  | some src =>
    let dest := (yx + 4) % 65536
    let code := [0xad, src &&& 0xff, (src >>> 8) &&& 0xff,
                 0x8d, dest &&& 0xff, (dest >>> 8) &&& 0xff, 0x60]
    .next transient_code { m with mpu_memory := write_bytes m.mpu_memory transient_code code }

/-- The function `callback_osword`. -/
def callback_osword (m : Machine) : Outcome :=
  if m.mpu_registers.a = 0x00 then callback_osword_input_line m
  else if m.mpu_registers.a = 0x05 then callback_osword_read_io_memory m
  else .fatal .unsupported_osword m

/-- The function `callback_read_escape_flag`: the value read is 0. -/
def callback_read_escape_flag (m : Machine) : Outcome :=
  .next 0 m

/-- The function `callback_romsel_write`, `data` being a `uint8_t`. The case
labels of the `switch` are distinct constants, tried here in the order of the
source. The value returned (0) is ignored by the engine. -/
def callback_romsel_write (c : Platform) (data : Nat) (m : Machine) : Outcome :=
  let data := data % 256
  if data = bank_editor_a then
    .next 0 { m with mpu_memory := memcpy m.mpu_memory 0x8000 c.rom_editor_a c.rom_size }
  else if data = bank_editor_b then
    .next 0 { m with mpu_memory := memcpy m.mpu_memory 0x8000 c.rom_editor_b c.rom_size }
  else if data = c.bank_basic then
    if c.basic_version = -1 then .fatal .no_basic_version m
    else
      let rom := c.rom_basic c.basic_version.toNat
      .next 0 { m with mpu_memory := memcpy m.mpu_memory 0x8000 rom c.rom_size }
  else .fatal (.invalid_rom_bank data) m

/-- The loop of `callback_irq` that prints the message:
`for (uint8_t c; (c = mpu_memory[ptr]) != 0; ++ptr) putc(c, stderr);` with a
`uint16_t` pointer. The result is the list of the bytes printed; `none` when
the fuel is used up. -/
def irq_message (mem : Nat → Nat) : Nat → Nat → List Nat → Option (List Nat)
  | 0, _, _ => none
  | fuel + 1, ptr, printed =>
    if mem ptr % 256 ≠ 0 then
      irq_message mem fuel ((ptr + 1) % 65536) (printed ++ [mem ptr % 256])
    else some printed

/-- The function `callback_irq`. The pointer of the message loop visits each
of the 65536 cells once before it comes back to its start, so 65536 steps
without a NUL mean that the loop never ends. -/
def callback_irq (m : Machine) : Outcome :=
  match mpu_read_u16 m.mpu_memory (0x102 + m.mpu_registers.s) with
  | none => .fatal .read_u16_top m
  | some error_string_ptr =>
    let regs1 := { m.mpu_registers with s := (m.mpu_registers.s + 2) % 256 }
    let m1 := { m with mpu_registers := regs1 }
    let error_num_address := (error_string_ptr + 65535) % 65536
    match irq_message m.mpu_memory 65536 error_string_ptr [] with
    | none => .diverge m1
    | some message =>
      .fatal (.guest_error message (m.mpu_memory error_num_address % 256)) m1

/-! ## Resume entry points -/

/-- The function `execute_osrdch`. -/
def execute_osrdch (s : CString) (m : Machine) : Outcome :=
  if strlen s ≠ 1 then .fatal .multiple_characters m
  else if m.mpu_state ≠ .ms_osrdch_pending then .fatal .not_waiting_for_osrdch m
  else
    let m1 := { m with mpu_registers := { m.mpu_registers with a := s.char 0 % 256 } }
    resume (mpu_clear_carry m1)

/-- The echo loop of `execute_input_line`:
`for (i = 0; i < pending_length; ++i) driver_oswrch(line[i]);`, started at
index `i` with `n` iterations left. -/
def echo_line (line : CString) : Nat → Nat → Machine → Machine
  | 0, _, m => m
  | n + 1, i, m => echo_line line n (i + 1) (driver_oswrch (line.char i) m)

/-- The function `execute_input_line`. -/
def execute_input_line (line : CString) (m : Machine) : Outcome :=
  if m.mpu_state ≠ .ms_osword_input_line_pending then
    .fatal .not_waiting_for_osword0 m
  else
    let yx := yx m.mpu_registers
    if ¬ yx ≤ 0xff00 then .fatal .osword0_block_near_top m
    else
      match mpu_read_u16 m.mpu_memory yx with
      | none => .fatal .read_u16_top m
      | some buffer =>
        if ¬ buffer ≤ 0xff00 then .fatal .osword0_buffer_near_top m
        else
          let buffer_size := m.mpu_memory (yx + 2) + 1
          let pending_length := strlen line
          if ¬ pending_length < buffer_size then .fatal .line_too_long m
          else
            let mem1 := memcpy m.mpu_memory buffer line.char pending_length
            let m1 := { m with mpu_memory := mem1 }
            let m2 := echo_line line pending_length 0 m1
            let m3 := driver_oswrch cr (driver_oswrch lf m2)
            let mem4 := poke m3.mpu_memory (buffer + pending_length) cr
            let m4 := { m3 with mpu_memory := mem4 }
            let regs5 := { m4.mpu_registers with y := pending_length % 256 }
            let m5 := { m4 with mpu_registers := regs5 }
            resume (mpu_clear_carry m5)

/-! ## Initialisation -/

/-- The functions that `emulation_init` installs as callbacks. -/
inductive Handler where
  | callback_abort_read
  | callback_abort_write
  | callback_abort_call
  | callback_osrdch
  | callback_osasci
  | callback_osnewl
  | callback_oswrch
  | callback_osword
  | callback_osbyte
  | callback_oscli
  | callback_read_escape_flag
  | callback_romsel_write
  | callback_irq
  deriving DecidableEq, Repr

/-- The variable `mpu_callbacks`: for each kind of access (read, write, call)
and each address, the callback installed there, if any. -/
structure Callbacks where
  read : Nat → Option Handler
  write : Nat → Option Handler
  call : Nat → Option Handler

/-- Modelled from the spec: the engine macro `M6502_setCallback(mpu, read,
address, h)`, which stores `h` as the read hook of the address. -/
def set_read (cb : Callbacks) (address : Nat) (h : Handler) : Callbacks :=
  { cb with read := fun a => if a = address then some h else cb.read a }

/-- Modelled from the spec: the engine macro `M6502_setCallback(mpu, write,
address, h)`, which stores `h` as the write hook of the address. -/
def set_write (cb : Callbacks) (address : Nat) (h : Handler) : Callbacks :=
  { cb with write := fun a => if a = address then some h else cb.write a }

/-- Modelled from the spec: the engine macro `M6502_setCallback(mpu, call,
address, h)`, which stores `h` as the call hook of the address. -/
def set_call (cb : Callbacks) (address : Nat) (h : Handler) : Callbacks :=
  { cb with call := fun a => if a = address then some h else cb.call a }

/-- The function `set_abort_callback`. -/
def set_abort_callback (address : Nat) (cb : Callbacks) : Callbacks :=
  set_write (set_read cb address .callback_abort_read) address .callback_abort_write

/-- The loop `for (uint16_t address = start; cond(address); ++address) body`:
the counter wraps from 0xffff to 0. The result is `none` when the loop is
still running after `fuel` tests of its condition. -/
def for_u16 {σ : Type} (cond : Nat → Bool) (body : Nat → σ → σ) : Nat → Nat → σ → Option σ
  | 0, _, _ => none
  | fuel + 1, address, st =>
    if cond address then for_u16 cond body fuel ((address + 1) % 65536) (body address st)
    else some st

/-- The body of the first loop of `emulation_init`, over the OS workspace. -/
def workspace_body (address : Nat) (cb : Callbacks) : Callbacks :=
  if address = os_text_pointer ∨ address = os_text_pointer + 1 ∨ address = romsel_copy ∨
      address = 0xfd ∨ address = 0xfe then cb
  else set_abort_callback address cb

/-- The body of the second loop of `emulation_init`, over the OS vectors. -/
def vector_body (address : Nat) (cb : Callbacks) : Callbacks :=
  if address = brkv ∨ address = brkv + 1 ∨ address = wrchv ∨ address = wrchv + 1 then cb
  else set_abort_callback address cb

/-- The body of the third loop of `emulation_init`, over the OS entry points. -/
def call_body (address : Nat) (cb : Callbacks) : Callbacks :=
  set_call cb address .callback_abort_call

/-- The seven calls of `M6502_setCallback` that bind the OS entry points. -/
def bind_entry_points (cb : Callbacks) : Callbacks :=
  let cb1 := set_call cb 0xffe0 .callback_osrdch
  let cb2 := set_call cb1 0xffe3 .callback_osasci
  let cb3 := set_call cb2 0xffe7 .callback_osnewl
  let cb4 := set_call cb3 oswrch .callback_oswrch
  let cb5 := set_call cb4 0xfff1 .callback_osword
  let cb6 := set_call cb5 0xfff4 .callback_osbyte
  set_call cb6 0xfff7 .callback_oscli

/-- The three installations that follow the write of the WRCHV vector: the
read hook of 0xff, the write hook of 0xfe30 and the call hook of the
interrupt handler. -/
def bind_hardware (cb : Callbacks) : Callbacks :=
  let cb1 := set_read cb 0xff .callback_read_escape_flag
  let cb2 := set_write cb1 0xfe30 .callback_romsel_write
  set_call cb2 fake_irq_handler .callback_irq

/-- The loop `for (int i = 0; i < 256; ++i) vdu_variables[i] = -1;`, with
`n` iterations left at index `i`. -/
def clear_vdu_variables : Nat → Nat → (Nat → Int) → Nat → Int
  | 0, _, v => v
  | n + 1, i, v => clear_vdu_variables n (i + 1) (fun j => if j = i then -1 else v j)

/-- The part of `emulation_init` that sets up `vdu_variables`. -/
def init_vdu_variables (v : Nat → Int) : Nat → Int :=
  let v1 := clear_vdu_variables 256 0 v
  let v2 := fun j => if j = 0x55 then (7 : Int) else v1 j
  fun j => if j = 0x56 then (4 : Int) else v2 j

/-- Modelled from the spec: the engine macro `M6502_setVector(mpu, IRQ,
address)`, which stores the address in the two cells of the interrupt vector
at 0xfffe. -/
def set_irq_vector (mem : Nat → Nat) (address : Nat) : Nat → Nat :=
  poke (poke mem 0xfffe (address &&& 0xff)) 0xffff (address >>> 8)

/-- The function `emulation_init`, from the callback table `cb0` and the
machine `m0` that `M6502_new` and `M6502_reset` leave behind. The result is
the callback table and the way control is handed on; `none` when one of the
three loops is still running after `fuel` tests of its condition. -/
def emulation_init (fuel : Nat) (c : Platform) (cb0 : Callbacks) (m0 : Machine) :
    Option (Callbacks × Outcome) :=
  match for_u16 (fun a => decide (a < 0x100)) workspace_body fuel 0xb0 cb0 with
  | none => none
  | some cb1 =>
    match for_u16 (fun a => decide (a < 0x236)) vector_body fuel 0x200 cb1 with
    | none => none
    | some cb2 =>
      match for_u16 (fun a => decide (a ≠ 0)) call_body fuel 0xc000 cb2 with
      | none => none
      | some cb3 =>
        let cb4 := bind_entry_points cb3
        match mpu_write_u16 m0.mpu_memory wrchv oswrch with
        | none => some (cb4, .fatal .write_u16_top m0)
        | some mem1 =>
          let cb5 := bind_hardware cb4
          let mem2 := set_irq_vector mem1 fake_irq_handler
          let vdu := init_vdu_variables m0.vdu_variables
          let regs1 := { m0.mpu_registers with s := 0xff }
          let m1 := { m0 with mpu_memory := mem2, vdu_variables := vdu, mpu_registers := regs1 }
          match enter_basic c m1 with
          | .next address m2 =>
            some (cb5, mpu_run { m2 with mpu_registers := { m2.mpu_registers with pc := address } })
          | o => some (cb5, o)

/-- Modelled from the spec: the engine runs a callback with the address and
the data of the access that triggered it. -/
def invoke (c : Platform) (h : Handler) (address data : Nat) (m : Machine) : Outcome :=
  match h with
  | .callback_abort_read => callback_abort_read address data m
  | .callback_abort_write => callback_abort_write address data m
  | .callback_abort_call => callback_abort_call address data m
  | .callback_osrdch => callback_osrdch m
  | .callback_osasci => callback_osasci m
  | .callback_osnewl => callback_osnewl m
  | .callback_oswrch => callback_oswrch m
  | .callback_osword => callback_osword m
  | .callback_osbyte => callback_osbyte c m
  | .callback_oscli => callback_oscli c m
  | .callback_read_escape_flag => callback_read_escape_flag m
  | .callback_romsel_write => callback_romsel_write c data m
  | .callback_irq => callback_irq m

/-- Modelled from the spec: an access of one kind to an address runs the hook
installed for it in the table of that kind; `none` when no hook is installed
and the engine performs the access itself. -/
def trap (c : Platform) (table : Nat → Option Handler) (address data : Nat) (m : Machine) :
    Option Outcome :=
  (table address).map (fun h => invoke c h address data m)

/-! ## Vocabulary of the statements -/

/-- The registers hold values of their C types. -/
def Registers.wf (r : Registers) : Prop :=
  r.a < 256 ∧ r.x < 256 ∧ r.y < 256 ∧ r.p < 256 ∧ r.s < 256 ∧ r.pc < 65536

/-- The registers and every memory cell hold values of their C types. -/
def Machine.wf (m : Machine) : Prop :=
  m.mpu_registers.wf ∧ ∀ a, m.mpu_memory a < 256

/-- The 16-bit little-endian value stored at `address` and `address + 1`. -/
def stored_u16 (mem : Nat → Nat) (address : Nat) : Nat :=
  mem address + 256 * mem (address + 1)

/-- The machine with which `execute_input_line` enters the engine when the
line fits: `buffer` is the address stored in the parameter block. -/
def input_line_result (line : CString) (m : Machine) (buffer : Nat) : Machine :=
  let mem4 := poke (memcpy m.mpu_memory buffer line.char (strlen line)) (buffer + strlen line) cr
  { mpu_registers :=
      { a := m.mpu_registers.a
        x := m.mpu_registers.x
        y := strlen line % 256
        p := m.mpu_registers.p &&& 0xfe
        s := (m.mpu_registers.s + 2) % 256
        pc := (stored_u16 mem4 (0x101 + m.mpu_registers.s) + 1) % 65536 }
    mpu_memory := mem4
    vdu_variables := m.vdu_variables
    mpu_state := .ms_running
    driver := m.driver ++ line.bytes ++ [lf, cr] }

/-- The paged window of `after` holds the first `rom_size` bytes of `rom`, and
`after` agrees with `before` at every address outside the window. -/
def paged_in (rom_size : Nat) (rom : Nat → Nat) (before after : Nat → Nat) : Prop :=
  (∀ i, i < rom_size → after (0x8000 + i) = rom i) ∧
  (∀ a, (a < 0x8000 ∨ 0x8000 + rom_size ≤ a) → after a = before a)

/-- The `n` bytes of memory from `address` upwards. -/
def read_bytes (mem : Nat → Nat) : Nat → Nat → List Nat
  | _, 0 => []
  | address, n + 1 => mem address :: read_bytes mem (address + 1) n

/-- The memory from which `callback_oscli` reads the command string: the
memory on entry with X and Y stored in the cells `os_text_pointer` and
`os_text_pointer + 1`, which is the first thing the handler does. -/
def oscli_memory (m : Machine) : Nat → Nat :=
  poke (poke m.mpu_memory os_text_pointer m.mpu_registers.x) (os_text_pointer + 1)
    m.mpu_registers.y

/-- The machine in which `callback_oscli` leaves its star loop with Y = `y`. -/
def oscli_after_stars (m : Machine) (y : Nat) : Machine :=
  { m with
    mpu_memory := oscli_memory m
    mpu_registers := { m.mpu_registers with a := 4, x := bank_editor_b, y := y } }

/-- The state after the body of a `for_u16` loop has run for the `n`
addresses that follow `start`. -/
def loop_result {σ : Type} (body : Nat → σ → σ) (start n : Nat) (st : σ) : σ :=
  (List.range n).foldl (fun st i => body ((start + i) % 65536) st) st

/-- The callback table that `emulation_init` builds from the table `cb0`:
80 workspace addresses from 0xb0, 54 vector addresses from 0x200, 16384
entry-point addresses from 0xc000, and then the single installations. -/
def installed (cb0 : Callbacks) : Callbacks :=
  bind_hardware (bind_entry_points
    (loop_result call_body 0xc000 0x4000
      (loop_result vector_body 0x200 0x36
        (loop_result workspace_body 0xb0 0x50 cb0))))

/-- The address is one of the OS entry points that `emulation_init` binds to
a handler of its own, or the address of the interrupt handler. -/
def bound_entry (a : Nat) : Prop :=
  a = 0xffe0 ∨ a = 0xffe3 ∨ a = 0xffe7 ∨ a = 0xffee ∨ a = 0xfff1 ∨ a = 0xfff4 ∨
    a = 0xfff7 ∨ a = 0xf000

/-- The address is one of the workspace cells that `emulation_init` leaves
without a hook: the command-tail pointer, the current-bank byte and the
error-message pointer. -/
def supported_cell (a : Nat) : Prop :=
  a = 0xf2 ∨ a = 0xf3 ∨ a = 0xf4 ∨ a = 0xfd ∨ a = 0xfe

instance (a : Nat) : Decidable (bound_entry a) := by
  unfold bound_entry
  infer_instance

instance (a : Nat) : Decidable (supported_cell a) := by
  unfold supported_cell
  infer_instance

/-- The RTS target on top of the guest stack: the 16-bit value stored at
0x101+S, plus one, as a 16-bit value. -/
def rts_target (m : Machine) : Nat :=
  (stored_u16 m.mpu_memory (0x101 + m.mpu_registers.s) + 1) % 65536

/-- The machine with the return address popped: S is increased by 2 modulo
256 and nothing else is changed. -/
def pop_return (m : Machine) : Machine :=
  { m with mpu_registers := { m.mpu_registers with s := (m.mpu_registers.s + 2) % 256 } }

/-- The callback table with no hook installed. -/
def empty_callbacks : Callbacks :=
  { read := fun _ => none, write := fun _ => none, call := fun _ => none }

/-- The outcome `o` of a handler run on the machine `m` is synchronous: the
handler has returned a value to the engine with the suspend state of `m`, or
the outcome is fatal. -/
def synchronous (m : Machine) (o : Outcome) : Prop :=
  match o with
  | .next _ m1 => m1.mpu_state = m.mpu_state
  | .fatal _ _ => True
  | _ => False

/-- Modelled from the spec: the JSR of the 6502, which pushes the return
value (T - 1) mod 65536 with the stack pointer `s0`: the high byte is stored
at 0x100 + s0, the low byte at 0x100 + ((s0 - 1) mod 256), and the stack
pointer becomes (s0 - 2) mod 256. -/
def jsr_push (m : Machine) (s0 t : Nat) : Machine :=
  let v := (t + 65535) % 65536
  let mem1 := poke m.mpu_memory (0x100 + s0) (v >>> 8)
  let mem2 := poke mem1 (0x100 + (s0 + 255) % 256) (v &&& 0xff)
  { m with mpu_memory := mem2, mpu_registers := { m.mpu_registers with s := (s0 + 254) % 256 } }

/-- The indices of `mpu_memory` that the star loop of `callback_oscli` reads,
in the order of the reads; it follows `skip_stars`. -/
def skip_stars_reads (mem : Nat → Nat) (yx : Nat) : Nat → Nat → List Nat
  | 0, _ => []
  | fuel + 1, y =>
    if mem (yx + y) = 0x2a then
      if (y + 1) % 256 = 0 then [yx + y]
      else (yx + y) :: skip_stars_reads mem yx fuel ((y + 1) % 256)
    else [yx + y]

/-- The indices of `mpu_memory` that `memcmp(&mpu_memory[address], s, n)`
reads when it stops at the first byte that differs; every `memcmp` reads at
least these. -/
def memcmp_reads (mem : Nat → Nat) : Nat → List Nat → List Nat
  | _, [] => []
  | address, b :: bs =>
    if mem address = b then address :: memcmp_reads mem (address + 1) bs else [address]

/-- The indices of `mpu_memory` that `callback_oscli` reads or writes, in the
order of the source: the two pointer cells, the bytes examined by the star
loop, the bytes compared with the keyword, and the code that is written. -/
def oscli_accesses (m : Machine) : List Nat :=
  let yx := yx m.mpu_registers
  if ¬ yx ≤ 0xff00 then []
  else
    let mem0 := poke m.mpu_memory os_text_pointer m.mpu_registers.x
    let mem1 := poke mem0 (os_text_pointer + 1) m.mpu_registers.y
    [os_text_pointer, os_text_pointer + 1] ++ skip_stars_reads mem1 yx 256 0 ++
      match skip_stars mem1 yx 256 0 with
      | .found y =>
        memcmp_reads mem1 (yx + y) keyword_basic ++
          (if memcmp_eq mem1 (yx + y) keyword_basic then List.range' transient_code 10
           else List.range' service_code 32)
      | _ => []

/-! ## The instructions of the service loop -/

/-- Modelled from the spec: the instruction engine (`M6502_run`) is outside
the translated file. This is the part of the processor state that the
service loop uses: PC, A, X, the flags N and Z, the memory, the bank last
written to the paging register 0xfe30, and the calls of the service entry
made so far, oldest first, each with the bank paged in and the value of A on
entry. -/
structure Cpu where
  pc : Nat
  a : Nat
  x : Nat
  n : Bool
  z : Bool
  mem : Nat → Nat
  paged : Option Nat
  calls : List (Nat × Nat)

/-- How the execution of the service loop ends. -/
inductive EndKind where
  /-- An RTS is reached: control returns to the caller of OSCLI. -/
  | returned
  /-- A BRK is reached; PC is the address of its opcode. -/
  | brk
  /-- The instruction at PC is not one of those the loop is made of. -/
  | stuck
  deriving DecidableEq, Repr

/-- The result of one instruction. -/
inductive StepResult where
  | more (s : Cpu)
  | done (kind : EndKind) (s : Cpu)

/-- Modelled from the spec: the target of a relative branch whose opcode is at
`pc`, the operand being a signed 8-bit displacement from `pc + 2`. -/
def branch_target (pc operand : Nat) : Nat :=
  if operand < 128 then (pc + 2 + operand) % 65536
  else (pc + 2 + operand + 65536 - 256) % 65536

/-- Modelled from the spec: one instruction of the engine, for the ten opcodes
that occur in the service loop (STX zp, STX abs, JSR abs, LDX zp, DEX, BPL,
CMP #, BNE, RTS, BRK) with their 6502 meaning. A store to 0xfe30 pages in
the bank in X. A JSR to the service entry 0x8003 is one call of the routine
`service`, which maps the bank paged in and the value of A on entry to the
value of A on return and changes nothing else. -/
def step (service : Nat → Nat → Nat) (s : Cpu) : StepResult :=
  let op := s.mem s.pc
  let b1 := s.mem ((s.pc + 1) % 65536)
  let b2 := s.mem ((s.pc + 2) % 65536)
  if op = 0x86 then
    .more { s with mem := poke s.mem b1 s.x, pc := (s.pc + 2) % 65536 }
  else if op = 0x8e then
    if b1 + 256 * b2 = 0xfe30 then
      .more { s with paged := some s.x, pc := (s.pc + 3) % 65536 }
    else .more { s with mem := poke s.mem (b1 + 256 * b2) s.x, pc := (s.pc + 3) % 65536 }
  else if op = 0x20 then
    if b1 + 256 * b2 = 0x8003 then
      match s.paged with
      | some bank =>
        .more { s with
          a := service bank s.a % 256
          calls := s.calls ++ [(bank, s.a)]
          pc := (s.pc + 3) % 65536 }
      | none => .done .stuck s
    else .done .stuck s
  else if op = 0xa6 then
    let v := s.mem b1
    .more { s with x := v, n := decide (128 ≤ v), z := decide (v = 0), pc := (s.pc + 2) % 65536 }
  else if op = 0xca then
    let v := (s.x + 255) % 256
    .more { s with x := v, n := decide (128 ≤ v), z := decide (v = 0), pc := (s.pc + 1) % 65536 }
  else if op = 0x10 then
    .more { s with pc := if s.n then (s.pc + 2) % 65536 else branch_target s.pc b1 }
  else if op = 0xc9 then
    let v := (s.a + 256 - b1) % 256
    .more { s with n := decide (128 ≤ v), z := decide (v = 0), pc := (s.pc + 2) % 65536 }
  else if op = 0xd0 then
    .more { s with pc := if s.z then (s.pc + 2) % 65536 else branch_target s.pc b1 }
  else if op = 0x60 then .done .returned s
  else if op = 0x00 then .done .brk s
  else .done .stuck s

/-- Modelled from the spec: the engine runs instructions until the loop ends;
`none` when the fuel is used up. -/
def run (service : Nat → Nat → Nat) : Nat → Cpu → Option (EndKind × Cpu)
  | 0, _ => none
  | fuel + 1, s =>
    match step service s with
    | .more s1 => run service fuel s1
    | .done kind s1 => some (kind, s1)

/-- The processor state in which the engine continues at `address` after a
call handler has returned it, no bank having been paged in by the code at
`address` yet. -/
def continue_at (address : Nat) (m : Machine) : Cpu :=
  { pc := address
    a := m.mpu_registers.a
    x := m.mpu_registers.x
    n := m.mpu_registers.p.testBit 7
    z := m.mpu_registers.p.testBit 1
    mem := m.mpu_memory
    paged := none
    calls := [] }

/-- The kind of end and the calls of the service entry, of a run of the
service loop. -/
def run_summary (r : Option (EndKind × Cpu)) : Option (EndKind × List (Nat × Nat)) :=
  r.map (fun e => (e.1, e.2.calls))

/-- The end of the service loop when it is started in the state `s`, the
routine `service` standing for the service entries: bank 1 is entered with
the A of `s`, bank 0 with the A that bank 1 returned, and the kind of end
depends on the A that bank 0 returned. -/
def loop_end (service : Nat → Nat → Nat) (s : Cpu) : EndKind × Cpu :=
  let a1 := service 1 s.a % 256
  let a0 := service 0 a1 % 256
  (if a0 = 0 then .returned else .brk,
   { pc := if a0 = 0 then service_code + 17 else service_code + 18
     a := a0
     x := 255
     n := decide (128 ≤ a0)
     z := decide (a0 = 0)
     mem := poke (poke s.mem romsel_copy 1) romsel_copy 0
     paged := some 0
     calls := s.calls ++ [(1, s.a), (0, a1)] })

/-! ## Sample inputs -/

/-- A memory image that is zero except for the listed cells. -/
def memory_of (cells : List (Nat × Nat)) : Nat → Nat :=
  fun a => match cells.lookup a with
    | some v => v
    | none => 0

/-- A machine with the given registers A, X, Y, S, the given suspend state and
the given non-zero memory cells; P is 0xff, PC is 0, nothing was written to
the driver, and no VDU variable is defined. -/
def sample_machine (a x y s : Nat) (st : MpuState) (cells : List (Nat × Nat)) : Machine :=
  { mpu_registers := { a := a, x := x, y := y, p := 0xff, s := s, pc := 0 }
    mpu_memory := memory_of cells
    vdu_variables := fun _ => -1
    mpu_state := st
    driver := [] }

/-- The one-character string holding the letter A. -/
def string_A : CString := ⟨[0x41], by decide⟩

/-- The two-character string holding the letters H and I. -/
def string_HI : CString := ⟨[0x48, 0x49], by decide⟩

/-- The three-character string holding the letters H, E and Y. -/
def string_HEY : CString := ⟨[0x48, 0x45, 0x59], by decide⟩

/-- The machine used in the examples for `execute_input_line`: it waits in
OSWORD 0 with the parameter block at 0x0037 (buffer 0x0700, maximum length 2)
and the return address 0x1233 on its stack. -/
def line_machine : Machine :=
  sample_machine 0 0x37 0 0xfd .ms_osword_input_line_pending
    [(0x37, 0x00), (0x38, 0x07), (0x39, 2), (0x1fe, 0x33), (0x1ff, 0x12)]

/-- The platform used in the examples: BASIC in bank 12, 16K images (the
editor images filled with 0xea and 0xeb, the image of BASIC version `v` with
`v`), BASIC version 0 selected, PAGE 0x0e00 and HIMEM 0x8000. -/
def sample_platform : Platform :=
  { bank_basic := 12
    rom_size := 0x4000
    rom_editor_a := fun _ => 0xea
    rom_editor_b := fun _ => 0xeb
    rom_basic := fun v _ => v
    basic_version := 0
    page := 0x0e00
    himem := 0x8000 }

/-- A machine that calls OSCLI with YX = 0x00ee, where the six bytes
0xee..0xf3 hold a star and the letters B, A, S, I, C: the string runs over
the cells 0xf2 and 0xf3. -/
def overlap_basic_machine : Machine :=
  sample_machine 0 0xee 0 0xfd .ms_running
    [(0xee, 0x2a), (0xef, 0x42), (0xf0, 0x41), (0xf1, 0x53), (0xf2, 0x49), (0xf3, 0x43)]

/-- A machine that calls OSCLI with YX = 0x00f2, where the cell 0xf2 holds a
star and the cell 0xf3 the letter X. -/
def overlap_star_machine : Machine :=
  sample_machine 0 0xf2 0 0xfd .ms_running [(0xf2, 0x2a), (0xf3, 0x58)]

/-- A machine that calls OSCLI with YX = 0x0700, where two stars and the
letters B, A, S, I, C are stored, followed by a carriage return. -/
def star_basic_machine : Machine :=
  sample_machine 0 0x00 0x07 0xfd .ms_running
    [(0x700, 0x2a), (0x701, 0x2a), (0x702, 0x42), (0x703, 0x41), (0x704, 0x53),
     (0x705, 0x49), (0x706, 0x43), (0x707, 0x0d)]

/-- A machine that calls OSCLI with YX = 0x0700, where one star and the
letters H, I are stored, followed by a carriage return. -/
def star_hi_machine : Machine :=
  sample_machine 0 0x00 0x07 0xfd .ms_running
    [(0x700, 0x2a), (0x701, 0x48), (0x702, 0x49), (0x703, 0x0d)]

/-- A machine that calls OSCLI with YX = 0x0700 and whose memory holds a star
in every cell. -/
def all_stars_machine : Machine :=
  { mpu_registers := { a := 0, x := 0x00, y := 0x07, p := 0xff, s := 0xfd, pc := 0 }
    mpu_memory := fun _ => 0x2a
    vdu_variables := fun _ => -1
    mpu_state := .ms_running
    driver := [] }

/-- The machine in which `callback_oscli` has answered the command of
`star_hi_machine` with the service loop. -/
def service_machine : Machine :=
  (callback_oscli sample_platform star_hi_machine).machine

/-- The machine `service_machine` after the BRK of the service loop at 0x0b12
has pushed the return address 0x0b14 and the flags: S is 0xfa and the cells
0x1fc, 0x1fd hold the address. -/
def brk_machine : Machine :=
  { service_machine with
    mpu_registers := { service_machine.mpu_registers with s := 0xfa }
    mpu_memory := poke (poke service_machine.mpu_memory 0x1fc 0x14) 0x1fd 0x0b }

/-- A machine that calls OSBYTE 0xa0 with X = 0x55 and the VDU variables of
`emulation_init`; the return address 0x1233 is on its stack. -/
def vdu_machine : Machine :=
  { sample_machine 0xa0 0x55 0 0xfd .ms_running [(0x1fe, 0x33), (0x1ff, 0x12)] with
    vdu_variables := init_vdu_variables (fun _ => 0) }

/-- A machine that calls an OS routine with A = 0x41, X = 1, Y = 2 and the
return address 0x1233 on its stack. -/
def letter_machine : Machine :=
  sample_machine 0x41 1 2 0xfd .ms_running [(0x1fe, 0x33), (0x1ff, 0x12)]

/-- A machine that calls OSBYTE 0x7e with X = 1 and the return address
0x1233 on its stack. -/
def escape_machine : Machine :=
  sample_machine 0x7e 1 2 0xfd .ms_running [(0x1fe, 0x33), (0x1ff, 0x12)]

/-- A machine that calls OSWORD 0x05 with the parameter block at YX = 0x0070,
which holds the source address 0xfe34. -/
def io_machine : Machine :=
  sample_machine 0x05 0x70 0x00 0xfd .ms_running [(0x70, 0x34), (0x71, 0xfe)]

/-- A machine whose memory is zero, with S = 0 before a JSR. -/
def blank_machine : Machine :=
  sample_machine 0 0 0 0 .ms_running []

/-- A machine that calls OSCLI with YX = 0xff00, where the 255 cells
0xff00..0xfffe hold stars and the last cell 0xffff holds the letter B. -/
def top_machine : Machine :=
  { mpu_registers := { a := 0, x := 0x00, y := 0xff, p := 0xff, s := 0xfd, pc := 0 }
    mpu_memory := fun a => if 0xff00 ≤ a ∧ a < 0xffff then 0x2a else if a = 0xffff then 0x42 else 0
    vdu_variables := fun _ => -1
    mpu_state := .ms_running
    driver := [] }

/-- A machine that calls OSCLI with YX = 0x00ef, where the five cells
0xef..0xf3 hold the letters B, A, S, I, C. -/
def overlap_keyword_machine : Machine :=
  sample_machine 0 0xef 0 0xfd .ms_running
    [(0xef, 0x42), (0xf0, 0x41), (0xf1, 0x53), (0xf2, 0x49), (0xf3, 0x43)]

/-- A machine that calls OSCLI with YX = 0x0700, where a star, the letters
B, A, S, I, C and the letters X, Y, Z are stored, followed by a carriage
return. -/
def basic_xyz_machine : Machine :=
  sample_machine 0 0x00 0x07 0xfd .ms_running
    [(0x700, 0x2a), (0x701, 0x42), (0x702, 0x41), (0x703, 0x53), (0x704, 0x49),
     (0x705, 0x43), (0x706, 0x58), (0x707, 0x59), (0x708, 0x5a), (0x709, 0x0d)]

/-- A machine whose memory holds 0x22 just below the paged window, 0x11 and
0x44 in the first and the last cell of a 16K window, and 0x33 just above
it. -/
def paged_machine : Machine :=
  sample_machine 0 0 0 0xff .ms_running
    [(0x7fff, 0x22), (0x8000, 0x11), (0xbfff, 0x44), (0xc000, 0x33)]

/-- A machine that calls OSWORD 0x05 with the parameter block at
YX = 0x08fc, so that the destination YX + 4 is 0x0900; its memory is zero. -/
def io_overlap_machine : Machine :=
  sample_machine 0x05 0xfc 0x08 0xfd .ms_running []

/-! ## Basic facts about the primitives -/

theorem poke_same (mem : Nat → Nat) (address data : Nat) :
    poke mem address data address = data % 256 := by
  simp [poke]

theorem poke_other (mem : Nat → Nat) (address data a : Nat) (h : a ≠ address) :
    poke mem address data a = mem a := by
  simp [poke, h]

theorem shift_or_eq (hi lo : Nat) (h : lo < 256) :
    (hi <<< 8) ||| lo = 256 * hi + lo := by
  have := Nat.mul_add_lt_is_or (i := 8) (b := lo) (by simpa using h) hi
  rw [Nat.shiftLeft_eq, Nat.mul_comm]
  simpa using this.symm

theorem yx_eq (r : Registers) (hx : r.x < 256) (hy : r.y < 256) :
    yx r = 256 * r.y + r.x := by
  unfold yx
  rw [shift_or_eq _ _ hx]
  omega

theorem mpu_read_u16_eq (mem : Nat → Nat) (address : Nat) (ha : address < 0xffff)
    (h0 : mem address < 256) (h1 : mem (address + 1) < 256) :
    mpu_read_u16 mem address = some (stored_u16 mem address) := by
  unfold mpu_read_u16 stored_u16
  have hmod : address % 65536 = address := Nat.mod_eq_of_lt (by omega)
  simp only [hmod]
  rw [if_neg (by omega), shift_or_eq _ _ h0]
  congr 1
  omega

theorem memory_of_lt (cells : List (Nat × Nat)) (h : ∀ c ∈ cells, c.2 < 256) (a : Nat) :
    memory_of cells a < 256 := by
  unfold memory_of
  induction cells with
  | nil => simp [List.lookup]
  | cons c cs ih =>
    obtain ⟨k, v⟩ := c
    simp only [List.lookup]
    by_cases hk : a = k
    · subst hk
      simpa using h (a, v) (by simp)
    · have : (a == k) = false := by simpa using hk
      simp only [this]
      exact ih (fun c hc => h c (List.mem_cons_of_mem _ hc))

theorem sample_machine_wf (a x y s : Nat) (st : MpuState) (cells : List (Nat × Nat))
    (ha : a < 256) (hx : x < 256) (hy : y < 256) (hs : s < 256)
    (h : ∀ c ∈ cells, c.2 < 256) : (sample_machine a x y s st cells).wf :=
  ⟨⟨ha, hx, hy, by simp [sample_machine], hs, by simp [sample_machine]⟩,
    memory_of_lt cells h⟩

theorem clear_carry_bits (p i : Nat) (hp : p < 256) :
    (p &&& 0xfe).testBit i = (decide (i ≠ 0) && p.testBit i) := by
  rw [Nat.testBit_and]
  by_cases hi : i < 8
  · interval_cases i <;> simp [Nat.testBit, Nat.shiftRight_succ_inside]
  · have h1 : p.testBit i = false :=
      Nat.testBit_lt_two_pow (lt_of_lt_of_le hp (by
        calc 256 = 2 ^ 8 := by norm_num
          _ ≤ 2 ^ i := Nat.pow_le_pow_right (by norm_num) (by omega)))
    simp [h1]

theorem pull_rts_target_eq (m : Machine) (hs : m.mpu_registers.s < 256)
    (hm : ∀ a, m.mpu_memory a < 256) :
    pull_rts_target m =
      .next ((stored_u16 m.mpu_memory (0x101 + m.mpu_registers.s) + 1) % 65536)
        { m with mpu_registers :=
            { m.mpu_registers with s := (m.mpu_registers.s + 2) % 256 } } := by
  unfold pull_rts_target
  rw [mpu_read_u16_eq _ _ (by omega) (hm _) (hm _)]

theorem resume_eq (m : Machine) (hs : m.mpu_registers.s < 256)
    (hm : ∀ a, m.mpu_memory a < 256) :
    resume m =
      .run { m with
        mpu_state := .ms_running
        mpu_registers := { m.mpu_registers with
          s := (m.mpu_registers.s + 2) % 256
          pc := (stored_u16 m.mpu_memory (0x101 + m.mpu_registers.s) + 1) % 65536 } } := by
  unfold resume
  rw [pull_rts_target_eq m hs hm]
  rfl

/-! ## The resume entry points -/

/-- C1: resuming in a state that does not match is fatal. `execute_osrdch`
is fatal for every argument when the suspend state is Running or
AwaitingLine, and `execute_input_line` is fatal for every argument when it is
Running or AwaitingCharacter; the machine at the fatal exit is the machine
that was passed in, so no register, no memory byte and no driver output has
changed. -/
theorem resume_in_wrong_state_is_fatal (m : Machine) (s line : CString) :
    ((m.mpu_state = .ms_running ∨ m.mpu_state = .ms_osword_input_line_pending) →
      ∃ e, execute_osrdch s m = .fatal e m) ∧
    ((m.mpu_state = .ms_running ∨ m.mpu_state = .ms_osrdch_pending) →
      ∃ e, execute_input_line line m = .fatal e m) := by
  constructor
  · intro h
    unfold execute_osrdch
    by_cases hl : strlen s ≠ 1
    · exact ⟨_, if_pos hl⟩
    · rw [if_neg hl]
      have hst : m.mpu_state ≠ .ms_osrdch_pending := by
        rcases h with h | h <;> simp [h]
      exact ⟨_, if_pos hst⟩
  · intro h
    unfold execute_input_line
    have hst : m.mpu_state ≠ .ms_osword_input_line_pending := by
      rcases h with h | h <;> simp [h]
    exact ⟨_, if_pos hst⟩

/-- Witness of C1: both resume calls on a Running machine. -/
theorem resume_in_wrong_state_is_fatal_witness :
    (∃ e, execute_osrdch string_A (sample_machine 0 0 0 0xfd .ms_running []) =
      .fatal e (sample_machine 0 0 0 0xfd .ms_running [])) ∧
    (∃ e, execute_input_line string_HI (sample_machine 0 0 0 0xfd .ms_running []) =
      .fatal e (sample_machine 0 0 0 0xfd .ms_running [])) :=
  ⟨(resume_in_wrong_state_is_fatal _ string_A string_HI).1 (Or.inl rfl),
   (resume_in_wrong_state_is_fatal _ string_A string_HI).2 (Or.inl rfl)⟩

/-- C2: with the suspend state AwaitingCharacter, `execute_osrdch` on the
one-character string `c` enters the engine with A = c, the carry bit of P
clear and every other bit of P as before, the suspend state Running, PC the
16-bit value stored at 0x101+S plus one (as a 16-bit value), S increased by 2
modulo 256, and the memory unchanged. -/
theorem execute_osrdch_resumes (m : Machine) (s : CString) (c : Nat)
    (hs : s.bytes = [c]) (hst : m.mpu_state = .ms_osrdch_pending) (hwf : m.wf) :
    ∃ m1, execute_osrdch s m = .run m1 ∧
      m1.mpu_registers.a = c ∧
      m1.mpu_registers.p.testBit 0 = false ∧
      (∀ i, i ≠ 0 → m1.mpu_registers.p.testBit i = m.mpu_registers.p.testBit i) ∧
      m1.mpu_state = .ms_running ∧
      m1.mpu_registers.pc =
        (stored_u16 m.mpu_memory (0x101 + m.mpu_registers.s) + 1) % 65536 ∧
      m1.mpu_registers.s = (m.mpu_registers.s + 2) % 256 ∧
      m1.mpu_memory = m.mpu_memory := by
  obtain ⟨⟨-, -, -, hp, hsp, -⟩, hmem⟩ := hwf
  have hc : c < 256 := (s.valid c (by simp [hs])).2
  have hlen : strlen s = 1 := by simp [strlen, hs]
  unfold execute_osrdch
  rw [if_neg (by simp [hlen]), if_neg (by simp [hst])]
  rw [resume_eq _ (by simpa [mpu_clear_carry] using hsp) (by simpa [mpu_clear_carry] using hmem)]
  refine ⟨_, rfl, ?_, ?_, ?_, rfl, rfl, rfl, rfl⟩
  · simp [mpu_clear_carry, CString.char, hs, Nat.mod_eq_of_lt hc]
  · simp [mpu_clear_carry, clear_carry_bits _ _ hp]
  · intro i hi
    simp [mpu_clear_carry, clear_carry_bits _ _ hp, hi]

/-- Witness of C2: the letter A is returned to a machine waiting in OSRDCH
whose stack holds the return address 0x1233. -/
theorem execute_osrdch_resumes_witness :
    ∃ m1, execute_osrdch string_A
        (sample_machine 0 0 0 0xfd .ms_osrdch_pending [(0x1fe, 0x33), (0x1ff, 0x12)]) = .run m1 ∧
      m1.mpu_registers.a = 0x41 ∧
      m1.mpu_registers.p.testBit 0 = false ∧
      (∀ i, i ≠ 0 → m1.mpu_registers.p.testBit i = (0xff).testBit i) ∧
      m1.mpu_state = .ms_running ∧
      m1.mpu_registers.pc = 0x1234 ∧
      m1.mpu_registers.s = 0xff ∧
      m1.mpu_memory = memory_of [(0x1fe, 0x33), (0x1ff, 0x12)] :=
  execute_osrdch_resumes
    (sample_machine 0 0 0 0xfd .ms_osrdch_pending [(0x1fe, 0x33), (0x1ff, 0x12)])
    string_A 0x41 rfl rfl
    (sample_machine_wf _ _ _ _ _ _ (by decide) (by decide) (by decide) (by decide) (by decide))

theorem echo_line_eq (line : CString) (n i : Nat) (m : Machine)
    (h : i + n = line.bytes.length) :
    echo_line line n i m = { m with driver := m.driver ++ line.bytes.drop i } := by
  induction n generalizing i m with
  | zero =>
    have : line.bytes.drop i = [] := List.drop_eq_nil_of_le (by omega)
    rw [echo_line, this, List.append_nil]
  | succ n ih =>
    have hi : i < line.bytes.length := by omega
    rw [echo_line, ih (i + 1) _ (by omega)]
    have hd : line.bytes.drop i = line.bytes[i] :: line.bytes.drop (i + 1) :=
      List.drop_eq_getElem_cons hi
    have hc : line.char i = line.bytes[i] := by
      simp [CString.char, List.getD, List.getElem?_eq_getElem hi]
    rw [hd, hc]
    simp [driver_oswrch]

theorem char_lt (line : CString) (i : Nat) : line.char i < 256 := by
  unfold CString.char
  by_cases hi : i < line.bytes.length
  · have : line.bytes.getD i 0 = line.bytes[i] := by
      simp [List.getD, List.getElem?_eq_getElem hi]
    rw [this]
    exact (line.valid _ (List.getElem_mem hi)).2
  · have : line.bytes.getD i 0 = 0 := by
      simp [List.getD, List.getElem?_eq_none (Nat.le_of_not_lt hi)]
    omega

theorem execute_input_line_run (m : Machine) (line : CString)
    (hst : m.mpu_state = .ms_osword_input_line_pending) (hwf : m.wf)
    (hyx : yx m.mpu_registers ≤ 0xff00)
    (hbuf : stored_u16 m.mpu_memory (yx m.mpu_registers) ≤ 0xff00)
    (hlen : strlen line ≤ m.mpu_memory (yx m.mpu_registers + 2)) :
    execute_input_line line m =
      .run (input_line_result line m (stored_u16 m.mpu_memory (yx m.mpu_registers))) := by
  obtain ⟨⟨-, -, -, -, hsp, -⟩, hmem⟩ := hwf
  have hmem4 : ∀ a, poke (memcpy m.mpu_memory (stored_u16 m.mpu_memory (yx m.mpu_registers))
      line.char (strlen line)) (stored_u16 m.mpu_memory (yx m.mpu_registers) + strlen line)
      cr a < 256 := by
    intro a
    unfold poke memcpy
    split
    · exact Nat.mod_lt _ (by norm_num)
    · split
      · exact char_lt line _
      · exact hmem a
  unfold execute_input_line
  rw [if_neg (by simp [hst])]
  simp only []
  rw [if_neg (by simpa using hyx), mpu_read_u16_eq _ _ (by omega) (hmem _) (hmem _)]
  simp only []
  rw [if_neg (by simpa using hbuf), if_neg (by omega)]
  rw [echo_line_eq line (strlen line) 0 _ (by simp [strlen])]
  rw [resume_eq _ (by simpa [mpu_clear_carry, driver_oswrch] using hsp)
    (by simpa [mpu_clear_carry, driver_oswrch] using hmem4)]
  simp [input_line_result, mpu_clear_carry, driver_oswrch]

/-- C3: with the suspend state AwaitingLine, a parameter block at
YX <= 0xff00 whose buffer address B is <= 0xff00, and a line of length n not
above the maximum length L stored at YX+2, `execute_input_line` enters the
engine; the driver has received the line followed by LF and CR; memory holds
the line at B..B+n-1 and a carriage return at B+n and is unchanged elsewhere;
Y = n; the carry bit is clear; PC is the RTS target pulled from the stack;
the suspend state is Running. -/
theorem execute_input_line_succeeds (m : Machine) (line : CString)
    (hst : m.mpu_state = .ms_osword_input_line_pending) (hwf : m.wf)
    (hyx : yx m.mpu_registers ≤ 0xff00)
    (hbuf : stored_u16 m.mpu_memory (yx m.mpu_registers) ≤ 0xff00)
    (hlen : strlen line ≤ m.mpu_memory (yx m.mpu_registers + 2)) :
    ∃ m1, execute_input_line line m = .run m1 ∧
      m1.driver = m.driver ++ line.bytes ++ [lf, cr] ∧
      (∀ i (h : i < line.bytes.length),
        m1.mpu_memory (stored_u16 m.mpu_memory (yx m.mpu_registers) + i) = line.bytes[i]) ∧
      m1.mpu_memory (stored_u16 m.mpu_memory (yx m.mpu_registers) + strlen line) = 0x0d ∧
      (∀ a, (a < stored_u16 m.mpu_memory (yx m.mpu_registers) ∨
          stored_u16 m.mpu_memory (yx m.mpu_registers) + strlen line < a) →
        m1.mpu_memory a = m.mpu_memory a) ∧
      m1.mpu_registers.y = strlen line ∧
      m1.mpu_registers.p.testBit 0 = false ∧
      m1.mpu_registers.pc =
        (stored_u16 m1.mpu_memory (0x101 + m.mpu_registers.s) + 1) % 65536 ∧
      m1.mpu_state = .ms_running := by
  refine ⟨_, execute_input_line_run m line hst hwf hyx hbuf hlen, rfl, ?_, ?_, ?_, ?_, ?_,
    rfl, rfl⟩
  · intro i h
    have hne : stored_u16 m.mpu_memory (yx m.mpu_registers) + i ≠
        stored_u16 m.mpu_memory (yx m.mpu_registers) + strlen line := by
      unfold strlen
      omega
    simp only [input_line_result]
    rw [poke_other _ _ _ _ hne]
    unfold memcpy
    rw [if_pos ⟨by omega, by unfold strlen; omega⟩]
    simp [CString.char, List.getD, List.getElem?_eq_getElem h]
  · simp only [input_line_result]
    rw [poke_same]
    rfl
  · intro a ha
    simp only [input_line_result]
    rw [poke_other _ _ _ _ (by omega)]
    unfold memcpy
    rw [if_neg (by omega)]
  · have := hwf.2 (yx m.mpu_registers + 2)
    simp only [input_line_result]
    exact Nat.mod_eq_of_lt (by omega)
  · simp only [input_line_result]
    rw [clear_carry_bits _ _ hwf.1.2.2.2.1]
    simp

theorem line_machine_wf : line_machine.wf :=
  sample_machine_wf _ _ _ _ _ _ (by decide) (by decide) (by decide) (by decide) (by decide)

/-- Witness of C3: the two-character line HI fits the maximum length 2. -/
theorem execute_input_line_succeeds_witness :
    ∃ m1, execute_input_line string_HI line_machine = .run m1 ∧
      m1.driver = [0x48, 0x49, 0x0a, 0x0d] ∧
      (∀ i (h : i < string_HI.bytes.length),
        m1.mpu_memory (0x700 + i) = string_HI.bytes[i]) ∧
      m1.mpu_memory 0x702 = 0x0d ∧
      (∀ a, (a < 0x700 ∨ 0x702 < a) → m1.mpu_memory a = line_machine.mpu_memory a) ∧
      m1.mpu_registers.y = 2 ∧
      m1.mpu_registers.p.testBit 0 = false ∧
      m1.mpu_registers.pc = (stored_u16 m1.mpu_memory 0x1fe + 1) % 65536 ∧
      m1.mpu_state = .ms_running :=
  execute_input_line_succeeds line_machine string_HI rfl line_machine_wf
    (by decide) (by decide) (by decide)

/-- C4: with the suspend state AwaitingLine and valid pointers (YX <= 0xff00
and buffer address <= 0xff00), `execute_input_line` is fatal exactly when the
length of the line exceeds the maximum length L stored at YX+2, and then the
machine at the fatal exit is the machine that was passed in: no memory byte,
no register and no driver output has changed. -/
theorem execute_input_line_fatal_iff (m : Machine) (line : CString)
    (hst : m.mpu_state = .ms_osword_input_line_pending) (hwf : m.wf)
    (hyx : yx m.mpu_registers ≤ 0xff00)
    (hbuf : stored_u16 m.mpu_memory (yx m.mpu_registers) ≤ 0xff00) :
    ((execute_input_line line m).isFatal = true ↔
      m.mpu_memory (yx m.mpu_registers + 2) + 1 ≤ strlen line) ∧
    ((execute_input_line line m).isFatal = true →
      execute_input_line line m = .fatal .line_too_long m) := by
  by_cases hlen : strlen line ≤ m.mpu_memory (yx m.mpu_registers + 2)
  · rw [execute_input_line_run m line hst hwf hyx hbuf hlen]
    simp only [Outcome.isFatal]
    constructor
    · constructor
      · intro h
        cases h
      · intro h
        omega
    · intro h
      cases h
  · have hfatal : execute_input_line line m = .fatal .line_too_long m := by
      unfold execute_input_line
      rw [if_neg (by simp [hst])]
      simp only []
      rw [if_neg (by simpa using hyx),
        mpu_read_u16_eq _ _ (by omega) (hwf.2 _) (hwf.2 _)]
      simp only []
      rw [if_neg (by simpa using hbuf), if_pos (by omega)]
    rw [hfatal]
    simp only [Outcome.isFatal]
    exact ⟨⟨fun _ => by omega, fun _ => trivial⟩, fun _ => trivial⟩

/-- Witness of C4: a three-character line against the maximum length 2. -/
theorem execute_input_line_fatal_iff_witness :
    ((execute_input_line string_HEY line_machine).isFatal = true ↔ 2 + 1 ≤ 3) ∧
    ((execute_input_line string_HEY line_machine).isFatal = true →
      execute_input_line string_HEY line_machine = .fatal .line_too_long line_machine) :=
  execute_input_line_fatal_iff line_machine string_HEY rfl line_machine_wf
    (by decide) (by decide)

/-! ## ROM paging -/

theorem memcpy_paged_in (mem rom : Nat → Nat) (n : Nat) :
    paged_in n rom mem (memcpy mem 0x8000 rom n) := by
  constructor
  · intro i hi
    unfold memcpy
    rw [if_pos ⟨by omega, by omega⟩, Nat.add_sub_cancel_left]
  · intro a ha
    unfold memcpy
    rw [if_neg (by omega)]

/-- C5: a write of the byte `d` to the paging register. For `bank_editor_a`,
`bank_editor_b`, and `bank_basic` with a BASIC version selected, the handler
returns and the window 0x8000..0x8000+rom_size-1 holds the image of that bank
while every byte outside the window (and the rest of the machine) is
unchanged; for `bank_basic` with `config.basic_version` equal to -1, and for
every other byte, the write is fatal. The bank numbers are distinct, as the
case labels of a `switch` are. -/
theorem callback_romsel_write_pages (c : Platform) (m : Machine) (d : Nat) (hd : d < 256)
    (hdistinct : c.bank_basic ≠ bank_editor_a ∧ c.bank_basic ≠ bank_editor_b) :
    (d = bank_editor_a → ∃ mem1, paged_in c.rom_size c.rom_editor_a m.mpu_memory mem1 ∧
      callback_romsel_write c d m = .next 0 { m with mpu_memory := mem1 }) ∧
    (d = bank_editor_b → ∃ mem1, paged_in c.rom_size c.rom_editor_b m.mpu_memory mem1 ∧
      callback_romsel_write c d m = .next 0 { m with mpu_memory := mem1 }) ∧
    (d = c.bank_basic → 0 ≤ c.basic_version →
      ∃ mem1, paged_in c.rom_size (c.rom_basic c.basic_version.toNat) m.mpu_memory mem1 ∧
        callback_romsel_write c d m = .next 0 { m with mpu_memory := mem1 }) ∧
    (d = c.bank_basic → c.basic_version = -1 →
      (callback_romsel_write c d m).isFatal = true) ∧
    (d ≠ bank_editor_a → d ≠ bank_editor_b → d ≠ c.bank_basic →
      (callback_romsel_write c d m).isFatal = true) := by
  obtain ⟨hba, hbb⟩ := hdistinct
  have hmod : d % 256 = d := Nat.mod_eq_of_lt hd
  refine ⟨?_, ?_, ?_, ?_, ?_⟩
  · intro h
    refine ⟨_, memcpy_paged_in _ _ _, ?_⟩
    unfold callback_romsel_write
    simp only [hmod]
    rw [if_pos h]
  · intro h
    refine ⟨_, memcpy_paged_in _ _ _, ?_⟩
    unfold callback_romsel_write
    simp only [hmod]
    rw [if_neg (by rw [h]; decide), if_pos h]
  · intro h hv
    refine ⟨_, memcpy_paged_in _ _ _, ?_⟩
    have hv1 : c.basic_version ≠ -1 := by omega
    unfold callback_romsel_write
    simp only [hmod]
    rw [if_neg (by rw [h]; exact hba), if_neg (by rw [h]; exact hbb), if_pos h, if_neg hv1]
  · intro h hv
    unfold callback_romsel_write
    simp only [hmod]
    rw [if_neg (by rw [h]; exact hba), if_neg (by rw [h]; exact hbb), if_pos h, if_pos hv]
    rfl
  · intro h1 h2 h3
    unfold callback_romsel_write
    simp only [hmod]
    rw [if_neg h1, if_neg h2, if_neg h3]
    rfl

/-- Witness of C5: the image of editor bank 1, filled with 0xeb, is paged
into a machine whose window held other bytes: the first and the last cell of
the window now hold 0xeb, the cells next to the window are as before; and a
write of the unknown bank 7 is fatal. -/
theorem callback_romsel_write_pages_witness :
    (∃ mem1,
      callback_romsel_write sample_platform 1 paged_machine =
        .next 0 { paged_machine with mpu_memory := mem1 } ∧
      paged_machine.mpu_memory 0x8000 = 0x11 ∧ mem1 0x8000 = 0xeb ∧
      paged_machine.mpu_memory 0xbfff = 0x44 ∧ mem1 0xbfff = 0xeb ∧
      mem1 0x7fff = 0x22 ∧ mem1 0xc000 = 0x33) ∧
    (callback_romsel_write sample_platform 7 paged_machine).isFatal = true := by
  obtain ⟨mem1, hp, h⟩ :=
    (callback_romsel_write_pages sample_platform paged_machine 1 (by decide)
      ⟨by decide, by decide⟩).2.1 rfl
  exact ⟨⟨mem1, h, rfl, hp.1 0 (by decide), rfl, hp.1 0x3fff (by decide),
      hp.2 0x7fff (Or.inl (by decide)), hp.2 0xc000 (Or.inr (by decide))⟩,
    (callback_romsel_write_pages sample_platform paged_machine 7 (by decide)
      ⟨by decide, by decide⟩).2.2.2.2 (by decide) (by decide) (by decide)⟩

/-! ## OSBYTE -/

theorem and_ff (v : Nat) : v &&& 0xff = v % 256 :=
  Nat.and_pow_two_sub_one_eq_mod v 8

theorem shr_8 (v : Nat) : v >>> 8 = v / 256 := by
  rw [Nat.shiftRight_eq_div_pow]

theorem callback_osbyte_return_u16_eq (value : Nat) (m : Machine) (hv : value < 65536)
    (hwf : m.wf) :
    callback_osbyte_return_u16 value m =
      .next ((stored_u16 m.mpu_memory (0x101 + m.mpu_registers.s) + 1) % 65536)
        { m with mpu_registers := { m.mpu_registers with
            x := value % 256
            y := value / 256
            s := (m.mpu_registers.s + 2) % 256 } } := by
  have h1 : value / 256 % 256 = value / 256 := Nat.mod_eq_of_lt (by omega)
  simp only [callback_osbyte_return_u16, and_ff, shr_8, Nat.mod_eq_of_lt hv, h1]
  rw [pull_rts_target_eq _ (by exact hwf.1.2.2.2.2.1) (by exact hwf.2)]

/-- C10: OSBYTE with A = 0x83 and with A = 0x84 returns the low byte of the
configured 16-bit constant (`page`, `himem`) in X and its high byte in Y, so
that X + 256 * Y is the constant; A, the status flags and the memory are
unchanged, S is increased by 2 (modulo 256), and the address returned is the
RTS target pulled from the stack. -/
theorem callback_osbyte_boundary (c : Platform) (m : Machine) (hwf : m.wf)
    (hpage : c.page < 65536) (hhimem : c.himem < 65536) :
    (m.mpu_registers.a = 0x83 → ∃ m1,
      callback_osbyte c m =
        .next ((stored_u16 m.mpu_memory (0x101 + m.mpu_registers.s) + 1) % 65536) m1 ∧
      m1.mpu_registers.x = c.page % 256 ∧ m1.mpu_registers.y = c.page / 256 ∧
      m1.mpu_registers.x + 256 * m1.mpu_registers.y = c.page ∧
      m1.mpu_registers.a = m.mpu_registers.a ∧ m1.mpu_registers.p = m.mpu_registers.p ∧
      m1.mpu_memory = m.mpu_memory ∧
      m1.mpu_registers.s = (m.mpu_registers.s + 2) % 256) ∧
    (m.mpu_registers.a = 0x84 → ∃ m1,
      callback_osbyte c m =
        .next ((stored_u16 m.mpu_memory (0x101 + m.mpu_registers.s) + 1) % 65536) m1 ∧
      m1.mpu_registers.x = c.himem % 256 ∧ m1.mpu_registers.y = c.himem / 256 ∧
      m1.mpu_registers.x + 256 * m1.mpu_registers.y = c.himem ∧
      m1.mpu_registers.a = m.mpu_registers.a ∧ m1.mpu_registers.p = m.mpu_registers.p ∧
      m1.mpu_memory = m.mpu_memory ∧
      m1.mpu_registers.s = (m.mpu_registers.s + 2) % 256) := by
  constructor
  · intro ha
    have heq : callback_osbyte c m = callback_osbyte_return_u16 c.page m := by
      unfold callback_osbyte
      simp [ha]
    rw [heq, callback_osbyte_return_u16_eq _ m hpage hwf]
    exact ⟨_, rfl, rfl, rfl, by show c.page % 256 + 256 * (c.page / 256) = c.page; omega,
      rfl, rfl, rfl, rfl⟩
  · intro ha
    have heq : callback_osbyte c m = callback_osbyte_return_u16 c.himem m := by
      unfold callback_osbyte
      simp [ha]
    rw [heq, callback_osbyte_return_u16_eq _ m hhimem hwf]
    exact ⟨_, rfl, rfl, rfl, by show c.himem % 256 + 256 * (c.himem / 256) = c.himem; omega,
      rfl, rfl, rfl, rfl⟩

/-- Witness of C10: OSBYTE 0x83 on the sample platform returns PAGE = 0x0e00
as X = 0x00, Y = 0x0e and continues at 0x1234. -/
theorem callback_osbyte_boundary_witness :
    ∃ m1,
      callback_osbyte sample_platform
          (sample_machine 0x83 1 2 0xfd .ms_running [(0x1fe, 0x33), (0x1ff, 0x12)]) =
        .next 0x1234 m1 ∧
      m1.mpu_registers.x = 0x00 ∧ m1.mpu_registers.y = 0x0e ∧
      m1.mpu_registers.x + 256 * m1.mpu_registers.y = 0x0e00 ∧
      m1.mpu_registers.a = 0x83 ∧ m1.mpu_registers.p = 0xff ∧
      m1.mpu_memory = memory_of [(0x1fe, 0x33), (0x1ff, 0x12)] ∧
      m1.mpu_registers.s = 0xff :=
  (callback_osbyte_boundary sample_platform
    (sample_machine 0x83 1 2 0xfd .ms_running [(0x1fe, 0x33), (0x1ff, 0x12)])
    (sample_machine_wf _ _ _ _ _ _ (by decide) (by decide) (by decide) (by decide) (by decide))
    (by decide) (by decide)).1 rfl

/-! ## OSCLI -/

theorem keyword_basic_eq : keyword_basic = "BASIC".toList.map Char.toNat := by
  decide

theorem bad_command_eq : bad_command = "Bad command".toList.map Char.toNat := by
  decide

theorem write_bytes_other (bytes : List Nat) (mem : Nat → Nat) (address a : Nat)
    (h : a < address ∨ address + bytes.length ≤ a) :
    write_bytes mem address bytes a = mem a := by
  induction bytes generalizing mem address with
  | nil => rfl
  | cons b bs ih =>
    simp only [List.length_cons] at h
    rw [write_bytes, ih _ _ (by omega), poke_other _ _ _ _ (by omega)]

theorem read_write_bytes (bytes : List Nat) (mem : Nat → Nat) (address : Nat) :
    read_bytes (write_bytes mem address bytes) address bytes.length =
      bytes.map (fun b => b % 256) := by
  induction bytes generalizing mem address with
  | nil => rfl
  | cons b bs ih =>
    simp only [List.length_cons, read_bytes, write_bytes, List.map_cons]
    rw [ih, write_bytes_other _ _ _ _ (by omega), poke_same]

theorem read_bytes_get (mem : Nat → Nat) (bytes : List Nat) (address : Nat)
    (h : read_bytes mem address bytes.length = bytes) (i : Nat) (hi : i < bytes.length) :
    mem (address + i) = bytes[i] := by
  induction bytes generalizing address i with
  | nil => simp at hi
  | cons b bs ih =>
    simp only [List.length_cons, read_bytes, List.cons.injEq] at h
    cases i with
    | zero => simpa using h.1
    | succ j =>
      have := ih (address + 1) h.2 j (by simpa using hi)
      simpa [Nat.add_assoc, Nat.add_comm 1 j] using this

theorem read_bytes_congr (mem mem1 : Nat → Nat) (n address : Nat)
    (h : ∀ a, address ≤ a → a < address + n → mem1 a = mem a) :
    read_bytes mem1 address n = read_bytes mem address n := by
  induction n generalizing address with
  | zero => rfl
  | succ n ih =>
    simp only [read_bytes]
    rw [h address (by omega) (by omega), ih (address + 1) (fun a h1 h2 => h a (by omega) (by omega))]

theorem read_bytes_stars (mem : Nat → Nat) (n address : Nat)
    (h : read_bytes mem address n = List.replicate n 0x2a) (i : Nat) (hi : i < n) :
    mem (address + i) = 0x2a := by
  have hlen : (List.replicate n 0x2a).length = n := List.length_replicate _ _
  have h1 : read_bytes mem address (List.replicate n 0x2a).length = List.replicate n 0x2a := by
    rw [hlen]
    exact h
  have := read_bytes_get mem _ address h1 i (by omega)
  simpa using this

theorem memcmp_eq_iff (mem : Nat → Nat) (bytes : List Nat) (address : Nat) :
    memcmp_eq mem address bytes = true ↔ read_bytes mem address bytes.length = bytes := by
  induction bytes generalizing address with
  | nil => simp [memcmp_eq, read_bytes]
  | cons b bs ih =>
    simp only [memcmp_eq, List.length_cons, read_bytes, List.cons.injEq, Bool.and_eq_true,
      decide_eq_true_eq, ih]

theorem skip_stars_found (mem : Nat → Nat) (yx k : Nat) (hk : k ≤ 255)
    (hstars : ∀ i, i < k → mem (yx + i) = 0x2a) (hend : mem (yx + k) ≠ 0x2a)
    (fuel y : Nat) (hy : y ≤ k) (hfuel : k - y < fuel) :
    skip_stars mem yx fuel y = .found k := by
  induction fuel generalizing y with
  | zero => omega
  | succ fuel ih =>
    unfold skip_stars
    by_cases hyk : y = k
    · subst hyk
      rw [if_neg hend]
    · have hlt : y < k := by omega
      have hmod : (y + 1) % 256 = y + 1 := Nat.mod_eq_of_lt (by omega)
      rw [if_pos (hstars y hlt), hmod, if_neg (by omega)]
      exact ih (y + 1) (by omega) (by omega)

theorem skip_stars_wrapped (mem : Nat → Nat) (yx : Nat)
    (hstars : ∀ i, i < 256 → mem (yx + i) = 0x2a)
    (fuel y : Nat) (hy : y ≤ 255) (hfuel : 255 - y < fuel) :
    skip_stars mem yx fuel y = .wrapped := by
  induction fuel generalizing y with
  | zero => omega
  | succ fuel ih =>
    unfold skip_stars
    rw [if_pos (hstars y (by omega))]
    by_cases hy1 : y = 255
    · subst hy1
      rfl
    · have hmod : (y + 1) % 256 = y + 1 := Nat.mod_eq_of_lt (by omega)
      rw [hmod, if_neg (by omega)]
      exact ih (y + 1) (by omega) (by omega)

theorem skip_stars_ends (mem : Nat → Nat) (yx fuel y : Nat) (hy : y ≤ 255)
    (hfuel : 255 - y < fuel) : skip_stars mem yx fuel y ≠ .out_of_fuel := by
  induction fuel generalizing y with
  | zero => omega
  | succ fuel ih =>
    unfold skip_stars
    split
    · split
      · simp
      · have hmod : (y + 1) % 256 = y + 1 := Nat.mod_eq_of_lt (by omega)
        rw [hmod]
        exact ih (y + 1) (by omega) (by omega)
    · simp

theorem oscli_memory_other (m : Machine) (a : Nat) (h : a ≠ 0xf2 ∧ a ≠ 0xf3) :
    oscli_memory m a = m.mpu_memory a := by
  unfold oscli_memory
  rw [poke_other _ _ _ _ (by simpa [os_text_pointer] using h.2),
    poke_other _ _ _ _ (by simpa [os_text_pointer] using h.1)]

theorem callback_oscli_found (c : Platform) (m : Machine) (k : Nat)
    (hyx : yx m.mpu_registers ≤ 0xff00) (hk : k ≤ 255)
    (hstars : read_bytes (oscli_memory m) (yx m.mpu_registers) k = List.replicate k 0x2a)
    (hend : oscli_memory m (yx m.mpu_registers + k) ≠ 0x2a) :
    callback_oscli c m =
      if memcmp_eq (oscli_memory m) (yx m.mpu_registers + k) keyword_basic then
        enter_basic c (oscli_after_stars m k)
      else
        .next service_code { oscli_after_stars m k with
          mpu_memory := write_bytes (oscli_memory m) service_code
            (service_loop_code ++ bad_command ++ [0]) } := by
  have hskip := skip_stars_found (oscli_memory m) (yx m.mpu_registers) k hk
    (read_bytes_stars _ _ _ hstars) hend 256 0 (by omega) (by omega)
  unfold callback_oscli
  rw [if_neg (by simpa using hyx)]
  unfold oscli_memory at hskip
  simp only [hskip]
  rfl

theorem read_bytes_oscli_memory (m : Machine) (address n : Nat)
    (h : address + n ≤ 0xf2 ∨ 0xf3 < address) :
    read_bytes (oscli_memory m) address n = read_bytes m.mpu_memory address n :=
  read_bytes_congr _ _ _ _ (fun a h1 h2 => oscli_memory_other m a (by omega))

/-- C6 (amended): when YX <= 0xff00 and the bytes at YX, read after the
handler has stored X and Y in the cells 0xf2 and 0xf3, are k <= 255 stars
followed by the letters B, A, S, I, C (the string lying inside the 64K image),
`callback_oscli` returns 0x900, the ten bytes at 0x900 are
A2 bank_basic 86 F4 8E 30 FE 4C 00 80, the registers are A = 1, X = 0, Y = 0,
the cells 0xf2 and 0xf3 hold the X and Y of the call, and every byte from
0xb00 upwards is unchanged. -/
theorem callback_oscli_enters_basic (c : Platform) (m : Machine) (k : Nat)
    (hwf : m.wf) (hbank : c.bank_basic < 256)
    (hyx : yx m.mpu_registers ≤ 0xff00) (hk : k ≤ 255)
    (_hin : yx m.mpu_registers + k + 5 ≤ 0x10000)
    (hstars : read_bytes (oscli_memory m) (yx m.mpu_registers) k = List.replicate k 0x2a)
    (hword : read_bytes (oscli_memory m) (yx m.mpu_registers + k) 5 = keyword_basic) :
    ∃ m1, callback_oscli c m = .next 0x900 m1 ∧
      read_bytes m1.mpu_memory 0x900 10 =
        [0xa2, c.bank_basic, 0x86, 0xf4, 0x8e, 0x30, 0xfe, 0x4c, 0x00, 0x80] ∧
      m1.mpu_registers.a = 1 ∧ m1.mpu_registers.x = 0 ∧ m1.mpu_registers.y = 0 ∧
      m1.mpu_memory 0xf2 = m.mpu_registers.x ∧ m1.mpu_memory 0xf3 = m.mpu_registers.y ∧
      ∀ a, 0xb00 ≤ a → m1.mpu_memory a = m.mpu_memory a := by
  have hend : oscli_memory m (yx m.mpu_registers + k) ≠ 0x2a := by
    have := read_bytes_get _ keyword_basic _ hword 0 (by decide)
    rw [Nat.add_zero] at this
    rw [this]
    decide
  have hcmp : memcmp_eq (oscli_memory m) (yx m.mpu_registers + k) keyword_basic = true :=
    (memcmp_eq_iff _ _ _).2 hword
  rw [callback_oscli_found c m k hyx hk hstars hend, if_pos hcmp]
  refine ⟨_, rfl, ?_, rfl, rfl, rfl, ?_, ?_, ?_⟩
  · have := read_write_bytes (enter_basic_code c) (oscli_memory m) transient_code
    simpa [enter_basic_code, romsel_copy, transient_code, Nat.mod_eq_of_lt hbank] using this
  · show write_bytes (oscli_memory m) transient_code (enter_basic_code c) 0xf2 = _
    rw [write_bytes_other _ _ _ _ (Or.inl (by decide))]
    simp [oscli_memory, poke, os_text_pointer, Nat.mod_eq_of_lt hwf.1.2.1]
  · show write_bytes (oscli_memory m) transient_code (enter_basic_code c) 0xf3 = _
    rw [write_bytes_other _ _ _ _ (Or.inl (by decide))]
    simp [oscli_memory, poke, os_text_pointer, Nat.mod_eq_of_lt hwf.1.2.2.1]
  · intro a ha
    show write_bytes (oscli_memory m) transient_code (enter_basic_code c) a = _
    rw [write_bytes_other _ _ _ _ (by
      simp only [enter_basic_code, transient_code, List.length_cons, List.length_nil]
      omega)]
    exact oscli_memory_other m a (by omega)

/-- Witness of C6: two stars and BASIC at 0x0700. -/
theorem callback_oscli_enters_basic_witness :
    ∃ m1, callback_oscli sample_platform star_basic_machine = .next 0x900 m1 ∧
      read_bytes m1.mpu_memory 0x900 10 =
        [0xa2, 12, 0x86, 0xf4, 0x8e, 0x30, 0xfe, 0x4c, 0x00, 0x80] ∧
      m1.mpu_registers.a = 1 ∧ m1.mpu_registers.x = 0 ∧ m1.mpu_registers.y = 0 ∧
      m1.mpu_memory 0xf2 = 0x00 ∧ m1.mpu_memory 0xf3 = 0x07 ∧
      ∀ a, 0xb00 ≤ a → m1.mpu_memory a = star_basic_machine.mpu_memory a :=
  callback_oscli_enters_basic sample_platform star_basic_machine 2
    (sample_machine_wf _ _ _ _ _ _ (by decide) (by decide) (by decide) (by decide) (by decide))
    (by decide) (by decide) (by decide) (by decide) (by decide) (by decide)

/-- Counterexample to C6 as stated: YX = 0x00ee points at a star followed by
B, A, S, I, C, the last two letters lying in the cells 0xf2 and 0xf3. The
handler stores X and Y there before it reads the string, the comparison
fails, and it returns the address 0xb00 of a freshly written service loop
instead of 0x900. -/
theorem callback_oscli_enters_basic_counterexample :
    yx overlap_basic_machine.mpu_registers ≤ 0xff00 ∧
    read_bytes overlap_basic_machine.mpu_memory (yx overlap_basic_machine.mpu_registers) 6 =
      [0x2a, 0x42, 0x41, 0x53, 0x49, 0x43] ∧
    (callback_oscli sample_platform overlap_basic_machine).address = some 0xb00 ∧
    overlap_basic_machine.mpu_memory 0xb00 = 0 ∧
    (callback_oscli sample_platform overlap_basic_machine).machine.mpu_memory 0xb00 = 0x86 := by
  decide

/-- C7 (amended): the guard of the star loop, for YX <= 0xff00 and the bytes
at YX read after the handler has stored X and Y in the cells 0xf2 and 0xf3.
If they start with exactly k <= 255 stars and the five bytes after the stars
lie inside the 64K image, the handler is not fatal and the keyword is
compared at offset k: it enters BASIC when the five bytes at YX + k are the
keyword, and otherwise returns the service loop with Y = k. If they start
with 256 stars, the handler is fatal. -/
theorem callback_oscli_star_guard (c : Platform) (m : Machine)
    (hyx : yx m.mpu_registers ≤ 0xff00) :
    (∀ k, k ≤ 255 → yx m.mpu_registers + k + 5 ≤ 0x10000 →
      read_bytes (oscli_memory m) (yx m.mpu_registers) k = List.replicate k 0x2a →
      oscli_memory m (yx m.mpu_registers + k) ≠ 0x2a →
      (callback_oscli c m).isFatal = false ∧
      (read_bytes (oscli_memory m) (yx m.mpu_registers + k) 5 = keyword_basic →
        callback_oscli c m = enter_basic c (oscli_after_stars m k)) ∧
      (read_bytes (oscli_memory m) (yx m.mpu_registers + k) 5 ≠ keyword_basic →
        ∃ m1, callback_oscli c m = .next service_code m1 ∧ m1.mpu_registers.y = k)) ∧
    (read_bytes (oscli_memory m) (yx m.mpu_registers) 256 = List.replicate 256 0x2a →
      ∃ m1, callback_oscli c m = .fatal .too_many_stars m1) := by
  constructor
  · intro k hk _ hstars hend
    have hfound := callback_oscli_found c m k hyx hk hstars hend
    have hiff := memcmp_eq_iff (oscli_memory m) keyword_basic (yx m.mpu_registers + k)
    refine ⟨?_, ?_, ?_⟩
    · rw [hfound]
      split <;> rfl
    · intro hword
      rw [hfound, if_pos (hiff.2 hword)]
    · intro hword
      have hne : ¬ memcmp_eq (oscli_memory m) (yx m.mpu_registers + k) keyword_basic = true :=
        fun h => hword (hiff.1 h)
      rw [hfound, if_neg hne]
      exact ⟨_, rfl, rfl⟩
  · intro hstars
    have hskip := skip_stars_wrapped (oscli_memory m) (yx m.mpu_registers)
      (read_bytes_stars _ _ _ hstars) 256 0 (by omega) (by omega)
    unfold callback_oscli
    rw [if_neg (by simpa using hyx)]
    unfold oscli_memory at hskip
    simp only [hskip]
    exact ⟨_, rfl⟩

theorem all_stars_read :
    read_bytes (oscli_memory all_stars_machine) (yx all_stars_machine.mpu_registers) 256 =
      List.replicate 256 0x2a := by
  have h : ∀ n address, 0x700 ≤ address →
      read_bytes (oscli_memory all_stars_machine) address n = List.replicate n 0x2a := by
    intro n
    induction n with
    | zero => intro _ _; rfl
    | succ n ih =>
      intro address ha
      rw [read_bytes, ih (address + 1) (by omega), oscli_memory_other _ _ (by omega)]
      rfl
  exact h 256 _ (by decide)

/-- Witness of C7: one star and the letters H, I at 0x0700 (first part), and a
memory full of stars (second part). -/
theorem callback_oscli_star_guard_witness :
    ((callback_oscli sample_platform star_hi_machine).isFatal = false ∧
      (read_bytes (oscli_memory star_hi_machine) (yx star_hi_machine.mpu_registers + 1) 5 =
          keyword_basic →
        callback_oscli sample_platform star_hi_machine =
          enter_basic sample_platform (oscli_after_stars star_hi_machine 1)) ∧
      (read_bytes (oscli_memory star_hi_machine) (yx star_hi_machine.mpu_registers + 1) 5 ≠
          keyword_basic →
        ∃ m1, callback_oscli sample_platform star_hi_machine = .next service_code m1 ∧
          m1.mpu_registers.y = 1)) ∧
    (∃ m1, callback_oscli sample_platform all_stars_machine = .fatal .too_many_stars m1) :=
  ⟨(callback_oscli_star_guard sample_platform star_hi_machine (by decide)).1 1
      (by decide) (by decide) (by decide) (by decide),
   (callback_oscli_star_guard sample_platform all_stars_machine (by decide)).2
      all_stars_read⟩

/-- Counterexample to C7 as stated: YX = 0x00f2 points at exactly one star
(the cell 0xf3 holds the letter X), yet the handler returns the service loop
with Y = 0: it has stored X = 0xf2 over the star before the loop reads it. -/
theorem callback_oscli_star_guard_counterexample :
    yx overlap_star_machine.mpu_registers ≤ 0xff00 ∧
    read_bytes overlap_star_machine.mpu_memory (yx overlap_star_machine.mpu_registers) 1 =
      [0x2a] ∧
    overlap_star_machine.mpu_memory (yx overlap_star_machine.mpu_registers + 1) ≠ 0x2a ∧
    (callback_oscli sample_platform overlap_star_machine).address = some 0xb00 ∧
    (callback_oscli sample_platform overlap_star_machine).machine.mpu_registers.y = 0 := by
  decide

/-! ## The service loop and the interrupt handler -/

theorem callback_oscli_service (c : Platform) (m m1 : Machine)
    (h : callback_oscli c m = .next service_code m1) :
    ∃ y, m1 = { oscli_after_stars m y with
      mpu_memory := write_bytes (oscli_memory m) service_code
        (service_loop_code ++ bad_command ++ [0]) } := by
  unfold callback_oscli at h
  dsimp only at h
  split at h
  · cases h
  · split at h
    · cases h
    · cases h
    · rename_i y _
      split at h
      · simp only [enter_basic, Outcome.next.injEq] at h
        exact absurd h.1 (by decide)
      · simp only [Outcome.next.injEq, true_and] at h
        exact ⟨y, h.symm⟩

theorem service_code_written (c : Platform) (m m1 : Machine)
    (h : callback_oscli c m = .next service_code m1) :
    read_bytes m1.mpu_memory service_code 32 = service_loop_code ++ bad_command ++ [0] := by
  obtain ⟨y, rfl⟩ := callback_oscli_service c m m1 h
  exact read_write_bytes (service_loop_code ++ bad_command ++ [0]) (oscli_memory m) service_code

theorem irq_message_eq (mem : Nat → Nat) (bytes : List Nat) (fuel ptr : Nat)
    (printed : List Nat) (hfuel : bytes.length < fuel) (hptr : ptr + bytes.length < 65536)
    (hread : read_bytes mem ptr bytes.length = bytes)
    (hbytes : ∀ b ∈ bytes, 0 < b ∧ b < 256) (hnul : mem (ptr + bytes.length) % 256 = 0) :
    irq_message mem fuel ptr printed = some (printed ++ bytes) := by
  induction bytes generalizing fuel ptr printed with
  | nil =>
    cases fuel with
    | zero => simp at hfuel
    | succ fuel =>
      unfold irq_message
      rw [if_neg (by simpa using hnul)]
      simp
  | cons b bs ih =>
    cases fuel with
    | zero => simp at hfuel
    | succ fuel =>
      simp only [List.length_cons, read_bytes, List.cons.injEq] at hread hfuel hptr hnul
      have hb := hbytes b (by simp)
      have hmod : mem ptr % 256 = b := by
        rw [hread.1]
        exact Nat.mod_eq_of_lt hb.2
      have hnext : (ptr + 1) % 65536 = ptr + 1 := Nat.mod_eq_of_lt (by omega)
      unfold irq_message
      rw [if_pos (by omega), hmod, hnext,
        ih fuel (ptr + 1) (printed ++ [b]) (by omega) (by omega) hread.2
          (fun x hx => hbytes x (List.mem_cons_of_mem _ hx))
          (by rw [← hnul]; congr 2; omega)]
      simp

/-- C8: once `callback_oscli` has written the service loop (it returned
`service_code`), take any machine in which the 32 bytes of the loop are still
in place and in which, for its stack pointer S, the 16-bit value stored at
0x102+S is the address two bytes past the BRK opcode (the BRK is the byte 0x00
at `service_code + 18`). Then `callback_irq` reports the message bytes of
the text Bad command, which stand before a zero byte, with the error number
254 = 0xFE (the byte before the message), and ends the process. -/
theorem service_loop_brk_report (c : Platform) (m m1 m2 : Machine)
    (hcli : callback_oscli c m = .next service_code m1)
    (hcode : read_bytes m2.mpu_memory service_code 32 =
      read_bytes m1.mpu_memory service_code 32)
    (hwf : m2.wf)
    (hret : stored_u16 m2.mpu_memory (0x102 + m2.mpu_registers.s) = service_code + 18 + 2) :
    m1.mpu_memory (service_code + 18) = 0x00 ∧
    m2.mpu_memory (service_code + 18 + 1) = 0xfe ∧
    read_bytes m2.mpu_memory (service_code + 18 + 2) 12 = bad_command ++ [0] ∧
    callback_irq m2 = .fatal (.guest_error bad_command 254)
      { m2 with mpu_registers :=
          { m2.mpu_registers with s := (m2.mpu_registers.s + 2) % 256 } } := by
  have h1 := service_code_written c m m1 hcli
  have h2 : read_bytes m2.mpu_memory service_code
      (service_loop_code ++ bad_command ++ [0]).length =
      service_loop_code ++ bad_command ++ [0] := by
    rw [← h1, ← hcode]
    rfl
  have hget := read_bytes_get m2.mpu_memory _ service_code h2
  have hget1 := read_bytes_get m1.mpu_memory (service_loop_code ++ bad_command ++ [0])
    service_code (show read_bytes m1.mpu_memory service_code
      (service_loop_code ++ bad_command ++ [0]).length = _ from h1)
  have hnum : m2.mpu_memory (service_code + 19) = 0xfe := hget 19 (by decide)
  have hmsg : read_bytes m2.mpu_memory (service_code + 20) 12 = bad_command ++ [0] := by
    simp only [read_bytes]
    rw [hget 20 (by decide), show service_code + 20 + 1 = service_code + 21 from rfl,
      hget 21 (by decide), hget 22 (by decide), hget 23 (by decide), hget 24 (by decide),
      hget 25 (by decide), hget 26 (by decide), hget 27 (by decide), hget 28 (by decide),
      hget 29 (by decide), hget 30 (by decide), hget 31 (by decide)]
    rfl
  refine ⟨hget1 18 (by decide), hnum, hmsg, ?_⟩
  have hs : m2.mpu_registers.s < 256 := hwf.1.2.2.2.2.1
  have hloop : irq_message m2.mpu_memory 65536 (service_code + 18 + 2) [] =
      some ([] ++ bad_command) := by
    apply irq_message_eq
    · decide
    · decide
    · simp only [read_bytes]
      rw [hget 20 (by decide), show service_code + 18 + 2 + 1 = service_code + 21 from rfl,
        hget 21 (by decide), hget 22 (by decide), hget 23 (by decide), hget 24 (by decide),
        hget 25 (by decide), hget 26 (by decide), hget 27 (by decide), hget 28 (by decide),
        hget 29 (by decide), hget 30 (by decide)]
      rfl
    · decide
    · show m2.mpu_memory (service_code + 31) % 256 = 0
      rw [hget 31 (by decide)]
      rfl
  unfold callback_irq
  rw [mpu_read_u16_eq _ _ (by omega) (hwf.2 _) (hwf.2 _), hret]
  simp only [hloop]
  have hnum1 : m2.mpu_memory ((service_code + 18 + 2 + 65535) % 65536) = 0xfe := hnum
  rw [hnum1]
  rfl

theorem poke_lt (mem : Nat → Nat) (address data : Nat) (h : ∀ a, mem a < 256) (a : Nat) :
    poke mem address data a < 256 := by
  unfold poke
  split
  · exact Nat.mod_lt _ (by norm_num)
  · exact h a

theorem write_bytes_lt (bytes : List Nat) (mem : Nat → Nat) (address : Nat)
    (h : ∀ a, mem a < 256) (a : Nat) : write_bytes mem address bytes a < 256 := by
  induction bytes generalizing mem address with
  | nil => exact h a
  | cons b bs ih => exact ih _ _ (poke_lt mem address b h)

theorem brk_machine_wf : brk_machine.wf := by
  refine ⟨⟨by decide, by decide, by decide, by decide, by decide, by decide⟩, ?_⟩
  show ∀ a, poke (poke (write_bytes (oscli_memory star_hi_machine) service_code
    (service_loop_code ++ bad_command ++ [0])) 0x1fc 0x14) 0x1fd 0x0b a < 256
  refine poke_lt _ _ _ (poke_lt _ _ _ (write_bytes_lt _ _ _ ?_))
  unfold oscli_memory
  exact poke_lt _ _ _ (poke_lt _ _ _ (memory_of_lt _ (by decide)))

/-- Witness of C8: the BRK of the service loop written for the command
of `star_hi_machine`, with the return address 0x0b14 on the stack. -/
theorem service_loop_brk_report_witness :
    service_machine.mpu_memory (service_code + 18) = 0x00 ∧
    brk_machine.mpu_memory (service_code + 18 + 1) = 0xfe ∧
    read_bytes brk_machine.mpu_memory (service_code + 18 + 2) 12 = bad_command ++ [0] ∧
    callback_irq brk_machine = .fatal (.guest_error bad_command 254)
      { brk_machine with mpu_registers := { brk_machine.mpu_registers with s := 0xfc } } :=
  service_loop_brk_report sample_platform star_hi_machine service_machine brk_machine
    rfl (by decide) brk_machine_wf (by decide)

theorem read_bytes_length (mem : Nat → Nat) (n address : Nat) :
    (read_bytes mem address n).length = n := by
  induction n generalizing address with
  | zero => rfl
  | succ n ih => simp [read_bytes, ih]

theorem read_bytes_append (mem : Nat → Nat) (n k address : Nat) :
    read_bytes mem address (n + k) =
      read_bytes mem address n ++ read_bytes mem (address + n) k := by
  induction n generalizing address with
  | zero => simp [read_bytes]
  | succ n ih =>
    rw [show n + 1 + k = (n + k) + 1 by omega]
    simp only [read_bytes, List.cons_append, ih (address + 1)]
    rw [show address + 1 + n = address + (n + 1) by omega]

theorem service_loop_written (c : Platform) (m m1 : Machine)
    (h : callback_oscli c m = .next service_code m1) :
    read_bytes m1.mpu_memory service_code 20 = service_loop_code := by
  have h1 := service_code_written c m m1 h
  rw [show (32 : Nat) = 20 + 12 from rfl, read_bytes_append, List.append_assoc] at h1
  exact (List.append_inj h1 (by rw [read_bytes_length]; rfl)).1

theorem run_service_loop (service : Nat → Nat → Nat) (s : Cpu)
    (hcode : read_bytes s.mem service_code 20 = service_loop_code)
    (hpc : s.pc = service_code) (hx : s.x = 1) :
    run service 32 s = some (loop_end service s) := by
  have hget := read_bytes_get s.mem service_loop_code service_code hcode
  have h0 : s.mem 2816 = 0x86 := hget 0 (by decide)
  have h1 : s.mem 2817 = 0xf4 := hget 1 (by decide)
  have h2 : s.mem 2818 = 0x8e := hget 2 (by decide)
  have h3 : s.mem 2819 = 0x30 := hget 3 (by decide)
  have h4 : s.mem 2820 = 0xfe := hget 4 (by decide)
  have h5 : s.mem 2821 = 0x20 := hget 5 (by decide)
  have h6 : s.mem 2822 = 0x03 := hget 6 (by decide)
  have h7 : s.mem 2823 = 0x80 := hget 7 (by decide)
  have h8 : s.mem 2824 = 0xa6 := hget 8 (by decide)
  have h9 : s.mem 2825 = 0xf4 := hget 9 (by decide)
  have h10 : s.mem 2826 = 0xca := hget 10 (by decide)
  have h11 : s.mem 2827 = 0x10 := hget 11 (by decide)
  have h12 : s.mem 2828 = 243 := hget 12 (by decide)
  have h13 : s.mem 2829 = 0xc9 := hget 13 (by decide)
  have h14 : s.mem 2830 = 0 := hget 14 (by decide)
  have h15 : s.mem 2831 = 0xd0 := hget 15 (by decide)
  have h16 : s.mem 2832 = 1 := hget 16 (by decide)
  have h17 : s.mem 2833 = 0x60 := hget 17 (by decide)
  have h18 : s.mem 2834 = 0x00 := hget 18 (by decide)
  obtain ⟨pc, a, x, n, z, mem, paged, calls⟩ := s
  simp only at hpc hx h0 h1 h2 h3 h4 h5 h6 h7 h8 h9 h10 h11 h12 h13 h14 h15 h16 h17 h18
  subst hpc hx
  by_cases hz : service 0 (service 1 a % 256) % 256 = 0 <;>
  simp [run, step, poke, branch_target, loop_end, service_code, romsel_copy,
    h0, h1, h2, h3, h4, h5, h6, h7, h8, h9, h10, h11, h12, h13, h14, h15, h16, h17, h18, hz]

/-- C9 (amended): the service loop that `callback_oscli` has written at
0xb00, run as 6502 instructions from the state the handler returns (A = 4,
X = `bank_editor_b` = 1), each service entry being a routine that maps the
bank paged in and A to a new A. It always calls the service entry of bank 1
(with A = 4) and then that of bank 0 (with the A that bank 1 returned),
also when bank 1 returned A = 0; after bank 0 it ends in the RTS when A = 0
and in the BRK at 0xb12 otherwise. The BPL at 0xb0b (operand 256-13) targets
0xb00 and the BNE at 0xb0f (operand 1) targets the BRK byte at 0xb12. -/
theorem service_loop_control_flow (c : Platform) (m m1 : Machine)
    (service : Nat → Nat → Nat)
    (hcli : callback_oscli c m = .next service_code m1) :
    m1.mpu_registers.a = 4 ∧ m1.mpu_registers.x = bank_editor_b ∧
    (∃ s, run service 32 (continue_at service_code m1) =
        some (if service 0 (service 1 4 % 256) % 256 = 0 then .returned else .brk, s) ∧
      s.calls = [(1, 4), (0, service 1 4 % 256)] ∧
      s.a = service 0 (service 1 4 % 256) % 256 ∧
      (service 0 (service 1 4 % 256) % 256 ≠ 0 → s.pc = service_code + 18)) ∧
    m1.mpu_memory (service_code + 11) = 0x10 ∧
    m1.mpu_memory (service_code + 12) = 256 - 13 ∧
    branch_target (service_code + 11) (m1.mpu_memory (service_code + 12)) = service_code ∧
    m1.mpu_memory (service_code + 15) = 0xd0 ∧
    m1.mpu_memory (service_code + 16) = 1 ∧
    branch_target (service_code + 15) (m1.mpu_memory (service_code + 16)) =
      service_code + 18 ∧
    m1.mpu_memory (service_code + 18) = 0x00 := by
  have hcode := service_loop_written c m m1 hcli
  have hget := read_bytes_get m1.mpu_memory service_loop_code service_code hcode
  obtain ⟨y, hm1⟩ := callback_oscli_service c m m1 hcli
  have ha : m1.mpu_registers.a = 4 := by rw [hm1]; rfl
  have hx : m1.mpu_registers.x = 1 := by rw [hm1]; rfl
  have hrun := run_service_loop service (continue_at service_code m1) hcode rfl hx
  have h12 : m1.mpu_memory (service_code + 12) = 256 - 13 := hget 12 (by decide)
  have h16 : m1.mpu_memory (service_code + 16) = 1 := hget 16 (by decide)
  refine ⟨ha, hx, ⟨(loop_end service (continue_at service_code m1)).2, ?_, ?_, ?_, ?_⟩,
    hget 11 (by decide), h12, ?_, hget 15 (by decide), h16, ?_, hget 18 (by decide)⟩
  · rw [hrun]
    simp only [loop_end, continue_at, ha]
  · simp [loop_end, continue_at, ha]
  · simp [loop_end, continue_at, ha]
  · intro hne
    simp [loop_end, continue_at, ha, hne]
  · rw [h12]
    decide
  · rw [h16]
    decide

/-- Witness of C9: the loop written for the command of `star_hi_machine`,
with service entries that return A as they found it. -/
theorem service_loop_control_flow_witness :
    service_machine.mpu_registers.a = 4 ∧ service_machine.mpu_registers.x = bank_editor_b ∧
    (∃ s, run (fun _ a => a) 32 (continue_at service_code service_machine) = some (.brk, s) ∧
      s.calls = [(1, 4), (0, 4)] ∧ s.a = 4 ∧ ((4 : Nat) ≠ 0 → s.pc = service_code + 18)) ∧
    service_machine.mpu_memory (service_code + 11) = 0x10 ∧
    service_machine.mpu_memory (service_code + 12) = 256 - 13 ∧
    branch_target (service_code + 11) (service_machine.mpu_memory (service_code + 12)) =
      service_code ∧
    service_machine.mpu_memory (service_code + 15) = 0xd0 ∧
    service_machine.mpu_memory (service_code + 16) = 1 ∧
    branch_target (service_code + 15) (service_machine.mpu_memory (service_code + 16)) =
      service_code + 18 ∧
    service_machine.mpu_memory (service_code + 18) = 0x00 :=
  service_loop_control_flow sample_platform star_hi_machine service_machine (fun _ a => a) rfl

/-- Counterexample to C9 as stated, on the loop written for the command of
`star_hi_machine`. When every service entry returns A = 0, bank 0 is still
called (with A = 0) after bank 1 has returned A = 0. When bank 1 returns
A = 0 and bank 0 returns A = 1, the loop ends in the BRK although a bank
returned A = 0. -/
theorem service_loop_control_flow_counterexample :
    callback_oscli sample_platform star_hi_machine = .next service_code service_machine ∧
    run_summary (run (fun _ _ => 0) 32 (continue_at service_code service_machine)) =
      some (.returned, [(1, 4), (0, 0)]) ∧
    run_summary (run (fun bank _ => if bank = 1 then 0 else 1) 32
        (continue_at service_code service_machine)) =
      some (.brk, [(1, 4), (0, 0)]) := by
  have hcode : read_bytes (continue_at service_code service_machine).mem service_code 20 =
      service_loop_code := service_loop_written sample_platform star_hi_machine _ rfl
  refine ⟨rfl, ?_, ?_⟩
  · rw [run_service_loop _ _ hcode rfl rfl]
    rfl
  · rw [run_service_loop _ _ hcode rfl rfl]
    rfl

/-! ## Initialisation: the callback table -/

theorem loop_result_succ {σ : Type} (body : Nat → σ → σ) (start n : Nat) (st : σ) :
    loop_result body start (n + 1) st =
      body ((start + n) % 65536) (loop_result body start n st) := by
  simp [loop_result, List.range_succ, List.foldl_append]

theorem loop_result_first {σ : Type} (body : Nat → σ → σ) (start n : Nat) (st : σ)
    (hs : start < 65536) :
    loop_result body start (n + 1) st =
      loop_result body ((start + 1) % 65536) n (body start st) := by
  induction n generalizing st with
  | zero => simp [loop_result, List.range_succ, Nat.mod_eq_of_lt hs]
  | succ n ih =>
    have hmod : (start + (n + 1)) % 65536 = ((start + 1) % 65536 + n) % 65536 := by omega
    rw [loop_result_succ, ih, loop_result_succ, hmod]

theorem for_u16_eq {σ : Type} (cond : Nat → Bool) (body : Nat → σ → σ) (n : Nat)
    (fuel start : Nat) (st : σ) (hfuel : n < fuel) (hs : start < 65536)
    (htrue : ∀ i, i < n → cond ((start + i) % 65536) = true)
    (hfalse : cond ((start + n) % 65536) = false) :
    for_u16 cond body fuel start st = some (loop_result body start n st) := by
  induction n generalizing fuel start st with
  | zero =>
    cases fuel with
    | zero => omega
    | succ fuel =>
      have h0 : cond start = false := by simpa [Nat.mod_eq_of_lt hs] using hfalse
      simp [for_u16, h0, loop_result]
  | succ n ih =>
    cases fuel with
    | zero => omega
    | succ fuel =>
      have h0 : cond start = true := by simpa [Nat.mod_eq_of_lt hs] using htrue 0 (by omega)
      rw [for_u16, if_pos h0, loop_result_first body start n st hs]
      apply ih fuel _ _ (by omega) (Nat.mod_lt _ (by norm_num))
      · intro i hi
        have hmod : ((start + 1) % 65536 + i) % 65536 = (start + (i + 1)) % 65536 := by omega
        rw [hmod]
        exact htrue (i + 1) (by omega)
      · have hmod : ((start + 1) % 65536 + n) % 65536 = (start + (n + 1)) % 65536 := by omega
        rw [hmod]
        exact hfalse

theorem loop_result_table (proj : Callbacks → Nat → Option Handler)
    (body : Nat → Callbacks → Callbacks) (P : Nat → Prop) [DecidablePred P] (h : Handler)
    (hbody : ∀ address cb a,
      proj (body address cb) a = if a = address ∧ P address then some h else proj cb a)
    (start n : Nat) (hn : start + n ≤ 65536) (cb : Callbacks) (a : Nat) :
    proj (loop_result body start n cb) a =
      if start ≤ a ∧ a < start + n ∧ P a then some h else proj cb a := by
  induction n with
  | zero =>
    have : ¬ (start ≤ a ∧ a < start + 0 ∧ P a) := by omega
    rw [if_neg this]
    rfl
  | succ n ih =>
    rw [loop_result_succ, hbody, ih (by omega), Nat.mod_eq_of_lt (by omega)]
    by_cases ha : a = start + n
    · subst ha
      by_cases hp : P (start + n)
      · rw [if_pos ⟨rfl, hp⟩, if_pos ⟨by omega, by omega, hp⟩]
      · rw [if_neg (fun h => hp h.2), if_neg (by omega), if_neg (fun h => hp h.2.2)]
    · rw [if_neg (fun h => ha h.1)]
      by_cases h1 : start ≤ a ∧ a < start + n ∧ P a
      · rw [if_pos h1, if_pos ⟨h1.1, by omega, h1.2.2⟩]
      · rw [if_neg h1, if_neg (fun h => h1 ⟨h.1, by omega, h.2.2⟩)]

theorem workspace_body_read (address : Nat) (cb : Callbacks) (a : Nat) :
    (workspace_body address cb).read a =
      if a = address ∧ ¬ supported_cell address then some .callback_abort_read
      else cb.read a := by
  unfold workspace_body supported_cell set_abort_callback set_write set_read
  simp only [os_text_pointer, romsel_copy]
  split_ifs <;> simp_all

theorem workspace_body_write (address : Nat) (cb : Callbacks) (a : Nat) :
    (workspace_body address cb).write a =
      if a = address ∧ ¬ supported_cell address then some .callback_abort_write
      else cb.write a := by
  unfold workspace_body supported_cell set_abort_callback set_write set_read
  simp only [os_text_pointer, romsel_copy]
  split_ifs <;> simp_all

theorem vector_body_read (address : Nat) (cb : Callbacks) (a : Nat) :
    (vector_body address cb).read a =
      if a = address ∧ ¬ (address = 0x202 ∨ address = 0x203 ∨ address = 0x20e ∨
          address = 0x20f) then some .callback_abort_read
      else cb.read a := by
  unfold vector_body set_abort_callback set_write set_read
  simp only [brkv, wrchv]
  split_ifs <;> simp_all

theorem vector_body_write (address : Nat) (cb : Callbacks) (a : Nat) :
    (vector_body address cb).write a =
      if a = address ∧ ¬ (address = 0x202 ∨ address = 0x203 ∨ address = 0x20e ∨
          address = 0x20f) then some .callback_abort_write
      else cb.write a := by
  unfold vector_body set_abort_callback set_write set_read
  simp only [brkv, wrchv]
  split_ifs <;> simp_all

theorem call_body_call (address : Nat) (cb : Callbacks) (a : Nat) :
    (call_body address cb).call a =
      if a = address ∧ True then some .callback_abort_call else cb.call a := by
  simp [call_body, set_call]

theorem call_body_read (address : Nat) (cb : Callbacks) (a : Nat) :
    (call_body address cb).read a =
      if a = address ∧ False then some .callback_abort_read else cb.read a := by
  simp [call_body, set_call]

theorem call_body_write (address : Nat) (cb : Callbacks) (a : Nat) :
    (call_body address cb).write a =
      if a = address ∧ False then some .callback_abort_write else cb.write a := by
  simp [call_body, set_call]

theorem bound_call (cb3 : Callbacks) (a : Nat) (h : ¬ bound_entry a) :
    (bind_hardware (bind_entry_points cb3)).call a = cb3.call a := by
  unfold bound_entry at h
  simp only [bind_hardware, bind_entry_points, set_call, set_read, set_write,
    fake_irq_handler, oswrch]
  repeat rw [if_neg (by omega)]

theorem bound_write (cb3 : Callbacks) (a : Nat) (h : a ≠ 0xfe30) :
    (bind_hardware (bind_entry_points cb3)).write a = cb3.write a := by
  simp only [bind_hardware, bind_entry_points, set_call, set_read, set_write]
  rw [if_neg h]

theorem bound_read (cb3 : Callbacks) (a : Nat) (h : a ≠ 0xff) :
    (bind_hardware (bind_entry_points cb3)).read a = cb3.read a := by
  simp only [bind_hardware, bind_entry_points, set_call, set_read, set_write]
  rw [if_neg h]

theorem bound_read_escape (cb3 : Callbacks) :
    (bind_hardware (bind_entry_points cb3)).read 0xff = some .callback_read_escape_flag := by
  simp [bind_hardware, bind_entry_points, set_call, set_read, set_write]

theorem installed_call (cb0 : Callbacks) (a : Nat) (hlo : 0xc000 ≤ a) (hhi : a ≤ 0xffff)
    (h : ¬ bound_entry a) : (installed cb0).call a = some .callback_abort_call := by
  have hloop := loop_result_table Callbacks.call call_body (fun _ => True)
    .callback_abort_call call_body_call 0xc000 0x4000 (by norm_num)
    (loop_result vector_body 0x200 0x36 (loop_result workspace_body 0xb0 0x50 cb0)) a
  rw [if_pos ⟨hlo, by omega, trivial⟩] at hloop
  exact (bound_call _ a h).trans hloop

theorem looped_write (cb0 : Callbacks) (a : Nat) (hlo : 0xb0 ≤ a) (hhi : a ≤ 0xff)
    (h : ¬ supported_cell a) :
    (loop_result call_body 0xc000 0x4000
      (loop_result vector_body 0x200 0x36
        (loop_result workspace_body 0xb0 0x50 cb0))).write a =
      some .callback_abort_write := by
  have h3 := loop_result_table Callbacks.write call_body (fun _ => False)
    .callback_abort_write call_body_write 0xc000 0x4000 (by norm_num)
    (loop_result vector_body 0x200 0x36 (loop_result workspace_body 0xb0 0x50 cb0)) a
  have h2 := loop_result_table Callbacks.write vector_body
    (fun x => ¬ (x = 0x202 ∨ x = 0x203 ∨ x = 0x20e ∨ x = 0x20f))
    .callback_abort_write vector_body_write 0x200 0x36 (by norm_num)
    (loop_result workspace_body 0xb0 0x50 cb0) a
  have h1 := loop_result_table Callbacks.write workspace_body (fun x => ¬ supported_cell x)
    .callback_abort_write workspace_body_write 0xb0 0x50 (by norm_num) cb0 a
  rw [if_neg (by omega)] at h3
  rw [if_neg (by omega)] at h2
  rw [if_pos ⟨hlo, by omega, h⟩] at h1
  exact h3.trans (h2.trans h1)

theorem looped_read (cb0 : Callbacks) (a : Nat) (hlo : 0xb0 ≤ a) (hhi : a ≤ 0xff)
    (h : ¬ supported_cell a) :
    (loop_result call_body 0xc000 0x4000
      (loop_result vector_body 0x200 0x36
        (loop_result workspace_body 0xb0 0x50 cb0))).read a =
      some .callback_abort_read := by
  have h3 := loop_result_table Callbacks.read call_body (fun _ => False)
    .callback_abort_read call_body_read 0xc000 0x4000 (by norm_num)
    (loop_result vector_body 0x200 0x36 (loop_result workspace_body 0xb0 0x50 cb0)) a
  have h2 := loop_result_table Callbacks.read vector_body
    (fun x => ¬ (x = 0x202 ∨ x = 0x203 ∨ x = 0x20e ∨ x = 0x20f))
    .callback_abort_read vector_body_read 0x200 0x36 (by norm_num)
    (loop_result workspace_body 0xb0 0x50 cb0) a
  have h1 := loop_result_table Callbacks.read workspace_body (fun x => ¬ supported_cell x)
    .callback_abort_read workspace_body_read 0xb0 0x50 (by norm_num) cb0 a
  rw [if_neg (by omega)] at h3
  rw [if_neg (by omega)] at h2
  rw [if_pos ⟨hlo, by omega, h⟩] at h1
  exact h3.trans (h2.trans h1)

theorem installed_write (cb0 : Callbacks) (a : Nat) (hlo : 0xb0 ≤ a) (hhi : a ≤ 0xff)
    (h : ¬ supported_cell a) : (installed cb0).write a = some .callback_abort_write :=
  (bound_write _ a (by omega)).trans (looped_write cb0 a hlo hhi h)

theorem installed_read (cb0 : Callbacks) (a : Nat) (hlo : 0xb0 ≤ a) (hhi : a < 0xff)
    (h : ¬ supported_cell a) : (installed cb0).read a = some .callback_abort_read :=
  (bound_read _ a (by omega)).trans (looped_read cb0 a hlo (by omega) h)

theorem installed_read_escape (cb0 : Callbacks) :
    (installed cb0).read 0xff = some .callback_read_escape_flag :=
  bound_read_escape _

theorem emulation_init_step (fuel : Nat) (c : Platform) (cb0 cb1 cb2 cb3 : Callbacks)
    (m0 : Machine)
    (h1 : for_u16 (fun a => decide (a < 0x100)) workspace_body fuel 0xb0 cb0 = some cb1)
    (h2 : for_u16 (fun a => decide (a < 0x236)) vector_body fuel 0x200 cb1 = some cb2)
    (h3 : for_u16 (fun a => decide (a ≠ 0)) call_body fuel 0xc000 cb2 = some cb3) :
    ∃ m1, emulation_init fuel c cb0 m0 =
        some (bind_hardware (bind_entry_points cb3), .run m1) ∧
      m1.vdu_variables = init_vdu_variables m0.vdu_variables ∧
      m1.mpu_state = .ms_running ∧ m1.mpu_registers.pc = transient_code ∧
      m1.mpu_registers.s = 0xff := by
  have h4 : ∃ mem1, mpu_write_u16 m0.mpu_memory wrchv oswrch = some mem1 := by
    simp [mpu_write_u16, wrchv]
  obtain ⟨mem1, h4⟩ := h4
  unfold emulation_init
  simp only [h1, h2, h3, h4]
  exact ⟨_, rfl, rfl, rfl, rfl, rfl⟩

theorem workspace_loop_ends (fuel : Nat) (hfuel : 0x4000 < fuel) (cb : Callbacks) :
    for_u16 (fun a => decide (a < 0x100)) workspace_body fuel 0xb0 cb =
      some (loop_result workspace_body 0xb0 0x50 cb) :=
  for_u16_eq _ _ 0x50 fuel 0xb0 cb (by omega) (by norm_num)
    (by intro i hi; simp; omega) (by decide)

theorem vector_loop_ends (fuel : Nat) (hfuel : 0x4000 < fuel) (cb : Callbacks) :
    for_u16 (fun a => decide (a < 0x236)) vector_body fuel 0x200 cb =
      some (loop_result vector_body 0x200 0x36 cb) :=
  for_u16_eq _ _ 0x36 fuel 0x200 cb (by omega) (by norm_num)
    (by intro i hi; simp; omega) (by decide)

theorem call_loop_ends (fuel : Nat) (hfuel : 0x4000 < fuel) (cb : Callbacks) :
    for_u16 (fun a => decide (a ≠ 0)) call_body fuel 0xc000 cb =
      some (loop_result call_body 0xc000 0x4000 cb) :=
  for_u16_eq _ _ 0x4000 fuel 0xc000 cb (by omega) (by norm_num)
    (by intro i hi; simp; omega) (by decide)

theorem emulation_init_eq (fuel : Nat) (hfuel : 0x4000 < fuel) (c : Platform)
    (cb0 : Callbacks) (m0 : Machine) :
    ∃ m1, emulation_init fuel c cb0 m0 = some (installed cb0, .run m1) ∧
      m1.vdu_variables = init_vdu_variables m0.vdu_variables ∧
      m1.mpu_state = .ms_running ∧ m1.mpu_registers.pc = transient_code ∧
      m1.mpu_registers.s = 0xff :=
  emulation_init_step fuel c cb0 _ _ _ m0 (workspace_loop_ends fuel hfuel cb0)
    (vector_loop_ends fuel hfuel _) (call_loop_ends fuel hfuel _)

/-- C12: the loop of `emulation_init` that installs the call traps, started
at 0xc000 with a 16-bit counter, ends (0x4001 tests of its condition are
enough), and has then installed the abort handler as the call hook of exactly
the addresses 0xc000..0xffff. After `emulation_init` the call hook of every
address in 0xc000..0xffff other than the bound entry points 0xffe0, 0xffe3,
0xffe7, 0xffee, 0xfff1, 0xfff4, 0xfff7 and the interrupt handler 0xf000 is
`callback_abort_call`, and a call of such an address is fatal. -/
theorem call_traps_deny_by_default (fuel : Nat) (hfuel : 0x4000 < fuel) (c : Platform)
    (cb0 : Callbacks) (m0 : Machine) :
    (∃ cb3, for_u16 (fun a => decide (a ≠ 0)) call_body fuel 0xc000 cb0 = some cb3 ∧
      (∀ a, cb3.call a =
        if 0xc000 ≤ a ∧ a ≤ 0xffff then some .callback_abort_call else cb0.call a) ∧
      cb3.read = cb0.read ∧ cb3.write = cb0.write) ∧
    (∃ cb out, emulation_init fuel c cb0 m0 = some (cb, out) ∧
      ∀ a, 0xc000 ≤ a → a ≤ 0xffff → ¬ bound_entry a →
        cb.call a = some .callback_abort_call ∧
        ∀ data m, trap c cb.call a data m = some (.fatal (.abort_call a data) m)) := by
  constructor
  · refine ⟨_, call_loop_ends fuel hfuel cb0, ?_, ?_, ?_⟩
    · intro a
      have := loop_result_table Callbacks.call call_body (fun _ => True)
        .callback_abort_call call_body_call 0xc000 0x4000 (by norm_num) cb0 a
      rw [this]
      by_cases h : 0xc000 ≤ a ∧ a ≤ 0xffff
      · rw [if_pos ⟨h.1, by omega, trivial⟩, if_pos h]
      · rw [if_neg (by omega), if_neg h]
    · funext a
      have := loop_result_table Callbacks.read call_body (fun _ => False)
        .callback_abort_read call_body_read 0xc000 0x4000 (by norm_num) cb0 a
      rw [this, if_neg (by simp)]
    · funext a
      have := loop_result_table Callbacks.write call_body (fun _ => False)
        .callback_abort_write call_body_write 0xc000 0x4000 (by norm_num) cb0 a
      rw [this, if_neg (by simp)]
  · obtain ⟨m1, h, -⟩ := emulation_init_eq fuel hfuel c cb0 m0
    refine ⟨_, _, h, ?_⟩
    intro a hlo hhi hb
    have hcall := installed_call cb0 a hlo hhi hb
    refine ⟨hcall, ?_⟩
    intro data m
    unfold trap
    rw [hcall]
    rfl

/-- Witness of C12: a call of 0xd000 after the initialisation of an empty
callback table. -/
theorem call_traps_deny_by_default_witness :
    ∃ cb out,
      emulation_init 0x4001 sample_platform empty_callbacks letter_machine = some (cb, out) ∧
      cb.call 0xd000 = some .callback_abort_call ∧
      trap sample_platform cb.call 0xd000 0 letter_machine =
        some (.fatal (.abort_call 0xd000 0) letter_machine) := by
  obtain ⟨cb, out, h, hall⟩ :=
    (call_traps_deny_by_default 0x4001 (by norm_num) sample_platform empty_callbacks
      letter_machine).2
  have h1 := hall 0xd000 (by decide) (by decide) (by decide)
  exact ⟨cb, out, h, h1.1, h1.2 0 letter_machine⟩

/-- C13 (amended): after `emulation_init`, for every address in 0xb0..0xff
other than the command-tail pointer cells 0xf2 and 0xf3, the current-bank
byte 0xf4 and the error-message pointer cells 0xfd and 0xfe, the write hook is
`callback_abort_write` and a write is fatal; for every such address below
0xff the read hook is `callback_abort_read` and a read is fatal; the read
hook of 0xff is `callback_read_escape_flag`, and a read of 0xff returns 0. -/
theorem workspace_deny_by_default (fuel : Nat) (hfuel : 0x4000 < fuel) (c : Platform)
    (cb0 : Callbacks) (m0 : Machine) :
    ∃ cb out, emulation_init fuel c cb0 m0 = some (cb, out) ∧
      (∀ a, 0xb0 ≤ a → a ≤ 0xff → ¬ supported_cell a →
        cb.write a = some .callback_abort_write ∧
        ∀ data m, trap c cb.write a data m = some (.fatal (.abort_write a data) m)) ∧
      (∀ a, 0xb0 ≤ a → a < 0xff → ¬ supported_cell a →
        cb.read a = some .callback_abort_read ∧
        ∀ data m, trap c cb.read a data m = some (.fatal (.abort_read a data) m)) ∧
      cb.read 0xff = some .callback_read_escape_flag ∧
      ∀ data m, trap c cb.read 0xff data m = some (.next 0 m) := by
  obtain ⟨m1, h, -⟩ := emulation_init_eq fuel hfuel c cb0 m0
  refine ⟨_, _, h, ?_, ?_, installed_read_escape cb0, ?_⟩
  · intro a hlo hhi hs
    have hw := installed_write cb0 a hlo hhi hs
    refine ⟨hw, ?_⟩
    intro data m
    unfold trap
    rw [hw]
    rfl
  · intro a hlo hhi hs
    have hr := installed_read cb0 a hlo hhi hs
    refine ⟨hr, ?_⟩
    intro data m
    unfold trap
    rw [hr]
    rfl
  · intro data m
    unfold trap
    rw [installed_read_escape cb0]
    rfl

/-- Witness of C13: the cell 0xb0 after the initialisation of an empty
callback table. -/
theorem workspace_deny_by_default_witness :
    ∃ cb out,
      emulation_init 0x4001 sample_platform empty_callbacks letter_machine = some (cb, out) ∧
      trap sample_platform cb.write 0xb0 7 letter_machine =
        some (.fatal (.abort_write 0xb0 7) letter_machine) ∧
      trap sample_platform cb.read 0xb0 0 letter_machine =
        some (.fatal (.abort_read 0xb0 0) letter_machine) := by
  obtain ⟨cb, out, h, hw, hr, -⟩ :=
    workspace_deny_by_default 0x4001 (by norm_num) sample_platform empty_callbacks
      letter_machine
  exact ⟨cb, out, h, (hw 0xb0 (by decide) (by decide) (by decide)).2 7 letter_machine,
    (hr 0xb0 (by decide) (by decide) (by decide)).2 0 letter_machine⟩

/-- Counterexample to C13 as stated: the address 0xff lies in 0xb0..0xff and
is none of the five supported cells, yet after `emulation_init` its read hook
is `callback_read_escape_flag`, and a read of it returns 0 instead of being
fatal. -/
theorem workspace_deny_by_default_counterexample :
    0xb0 ≤ 0xff ∧ 0xff ≤ 0xff ∧ ¬ supported_cell 0xff ∧
    ∃ cb out,
      emulation_init 0x4001 sample_platform empty_callbacks letter_machine = some (cb, out) ∧
      cb.read 0xff = some .callback_read_escape_flag ∧
      trap sample_platform cb.read 0xff 0 letter_machine = some (.next 0 letter_machine) ∧
      (trap sample_platform cb.read 0xff 0 letter_machine).map Outcome.isFatal =
        some false := by
  obtain ⟨m1, h, -⟩ :=
    emulation_init_eq 0x4001 (by norm_num) sample_platform empty_callbacks letter_machine
  have hr := installed_read_escape empty_callbacks
  have ht : trap sample_platform (installed empty_callbacks).read 0xff 0 letter_machine =
      some (.next 0 letter_machine) := by
    unfold trap
    rw [hr]
    rfl
  refine ⟨by decide, by decide, by decide, _, _, h, hr, ht, ?_⟩
  rw [ht]
  rfl

/-! ## The synchronous handlers -/

theorem pull_rts_target_pop (m : Machine) (hwf : m.wf) :
    pull_rts_target m = .next (rts_target m) (pop_return m) :=
  pull_rts_target_eq m hwf.1.2.2.2.2.1 hwf.2

theorem clear_vdu_variables_eq (n i : Nat) (v : Nat → Int) (j : Nat) :
    clear_vdu_variables n i v j = if i ≤ j ∧ j < i + n then -1 else v j := by
  induction n generalizing i v with
  | zero =>
    rw [if_neg (by omega)]
    rfl
  | succ n ih =>
    rw [clear_vdu_variables, ih]
    by_cases h1 : i + 1 ≤ j ∧ j < i + 1 + n
    · rw [if_pos h1, if_pos (by omega)]
    · rw [if_neg h1]
      by_cases h2 : j = i
      · rw [if_pos h2, if_pos (by omega)]
      · rw [if_neg h2, if_neg (by omega)]

theorem init_vdu_variables_eq (v : Nat → Int) (j : Nat) (hj : j < 256) :
    init_vdu_variables v j = if j = 0x56 then 4 else if j = 0x55 then 7 else -1 := by
  unfold init_vdu_variables
  simp only [clear_vdu_variables_eq]
  rw [if_pos (show 0 ≤ j ∧ j < 0 + 256 by omega)]

theorem int_to_u8_eq (v : Int) (h0 : 0 ≤ v) (h1 : v < 256) : (int_to_u8 v : Int) = v := by
  unfold int_to_u8
  omega

/-- C11: OSBYTE with A = 0xa0 and the index i in X. When the entries i and
(i+1) mod 256 of the VDU variable table are both defined (not -1), the call
returns the RTS target with X and Y holding these entries converted to bytes,
which are the entries themselves when they are byte values; when one of the
two entries is -1 the call is fatal. The table set up by `emulation_init`
holds 7 at 0x55, 4 at 0x56 and -1 elsewhere, and with it the index 0x55
returns X = 7 and Y = 4. -/
theorem callback_osbyte_read_vdu (c : Platform) (m : Machine) (hwf : m.wf)
    (ha : m.mpu_registers.a = 0xa0) :
    (m.vdu_variables m.mpu_registers.x ≠ -1 →
      m.vdu_variables ((m.mpu_registers.x + 1) % 256) ≠ -1 →
      ∃ m1, callback_osbyte c m = .next (rts_target m) m1 ∧
        m1.mpu_registers.x = int_to_u8 (m.vdu_variables m.mpu_registers.x) ∧
        m1.mpu_registers.y = int_to_u8 (m.vdu_variables ((m.mpu_registers.x + 1) % 256)) ∧
        (0 ≤ m.vdu_variables m.mpu_registers.x → m.vdu_variables m.mpu_registers.x < 256 →
          (m1.mpu_registers.x : Int) = m.vdu_variables m.mpu_registers.x) ∧
        (0 ≤ m.vdu_variables ((m.mpu_registers.x + 1) % 256) →
          m.vdu_variables ((m.mpu_registers.x + 1) % 256) < 256 →
          (m1.mpu_registers.y : Int) = m.vdu_variables ((m.mpu_registers.x + 1) % 256))) ∧
    ((m.vdu_variables m.mpu_registers.x = -1 ∨
        m.vdu_variables ((m.mpu_registers.x + 1) % 256) = -1) →
      (callback_osbyte c m).isFatal = true) ∧
    (∀ v0 j, j < 256 →
      init_vdu_variables v0 j = if j = 0x56 then 4 else if j = 0x55 then 7 else -1) ∧
    (∀ v0, m.vdu_variables = init_vdu_variables v0 → m.mpu_registers.x = 0x55 →
      ∃ m1, callback_osbyte c m = .next (rts_target m) m1 ∧
        m1.mpu_registers.x = 7 ∧ m1.mpu_registers.y = 4) := by
  have hx : m.mpu_registers.x % 256 = m.mpu_registers.x := Nat.mod_eq_of_lt hwf.1.2.1
  have heq : callback_osbyte c m = callback_osbyte_read_vdu_variable m := by
    unfold callback_osbyte
    simp [ha]
  have hdef : m.vdu_variables m.mpu_registers.x ≠ -1 →
      m.vdu_variables ((m.mpu_registers.x + 1) % 256) ≠ -1 →
      callback_osbyte c m = .next (rts_target m)
        (pop_return { m with mpu_registers := { m.mpu_registers with
          x := int_to_u8 (m.vdu_variables m.mpu_registers.x)
          y := int_to_u8 (m.vdu_variables ((m.mpu_registers.x + 1) % 256)) } }) := by
    intro hi hj
    rw [heq]
    unfold callback_osbyte_read_vdu_variable
    simp only [hx]
    rw [if_neg hi, if_neg hj]
    exact pull_rts_target_eq _ hwf.1.2.2.2.2.1 hwf.2
  refine ⟨?_, ?_, fun v0 j hj => init_vdu_variables_eq v0 j hj, ?_⟩
  · intro hi hj
    exact ⟨_, hdef hi hj, rfl, rfl, fun h0 h1 => int_to_u8_eq _ h0 h1,
      fun h0 h1 => int_to_u8_eq _ h0 h1⟩
  · intro h
    rw [heq]
    unfold callback_osbyte_read_vdu_variable
    simp only [hx]
    by_cases hi : m.vdu_variables m.mpu_registers.x = -1
    · rw [if_pos hi]
      rfl
    · rw [if_neg hi, if_pos (h.resolve_left hi)]
      rfl
  · intro v0 hv hx55
    have h55 : m.vdu_variables m.mpu_registers.x = 7 := by
      rw [hv, hx55, init_vdu_variables_eq _ _ (by norm_num)]
      rfl
    have h56 : m.vdu_variables ((m.mpu_registers.x + 1) % 256) = 4 := by
      rw [hv, hx55, init_vdu_variables_eq _ _ (by norm_num)]
      rfl
    refine ⟨_, hdef (by rw [h55]; decide) (by rw [h56]; decide), ?_, ?_⟩
    · show int_to_u8 (m.vdu_variables m.mpu_registers.x) = 7
      rw [h55]
      rfl
    · show int_to_u8 (m.vdu_variables ((m.mpu_registers.x + 1) % 256)) = 4
      rw [h56]
      rfl

theorem vdu_machine_wf : vdu_machine.wf :=
  ⟨⟨by decide, by decide, by decide, by decide, by decide, by decide⟩,
    memory_of_lt _ (by decide)⟩

/-- Witness of C11: the index 0x55 with the table of `emulation_init`. -/
theorem callback_osbyte_read_vdu_witness :
    ∃ m1, callback_osbyte sample_platform vdu_machine = .next (rts_target vdu_machine) m1 ∧
      m1.mpu_registers.x = 7 ∧ m1.mpu_registers.y = 4 :=
  (callback_osbyte_read_vdu sample_platform vdu_machine vdu_machine_wf rfl).2.2.2
    (fun _ => 0) rfl rfl

theorem letter_machine_wf : letter_machine.wf :=
  sample_machine_wf _ _ _ _ _ _ (by decide) (by decide) (by decide) (by decide) (by decide)

/-- C14: `callback_oswrch` hands the byte in A to the driver, once, pops the
return address (S increased by 2 modulo 256), changes nothing else (A, X, Y,
the flags, the memory and the suspend state are as before) and returns the
RTS target; `callback_osasci` is `callback_oswrch` when A is not the carriage
return 0x0d, and is `callback_osnewl`, which hands LF and then CR to the
driver, when A is 0x0d. -/
theorem callback_oswrch_forwards (m : Machine) (hwf : m.wf) :
    callback_oswrch m =
      .next (rts_target m) (pop_return { m with driver := m.driver ++ [m.mpu_registers.a] }) ∧
    (m.mpu_registers.a ≠ 0x0d → callback_osasci m = callback_oswrch m) ∧
    (m.mpu_registers.a = 0x0d → callback_osasci m = callback_osnewl m) ∧
    callback_osnewl m =
      .next (rts_target m) (pop_return { m with driver := m.driver ++ [0x0a, 0x0d] }) := by
  refine ⟨?_, ?_, ?_, ?_⟩
  · unfold callback_oswrch
    exact pull_rts_target_eq _ hwf.1.2.2.2.2.1 hwf.2
  · intro h
    unfold callback_osasci
    rw [if_neg (show ¬ m.mpu_registers.a = cr from h)]
  · intro h
    unfold callback_osasci
    rw [if_pos (show m.mpu_registers.a = cr from h)]
  · unfold callback_osnewl
    rw [pull_rts_target_eq _ (by exact hwf.1.2.2.2.2.1) (by exact hwf.2)]
    simp [driver_oswrch, rts_target, pop_return, lf, cr]

/-- Witness of C14: OSWRCH and OSASCI with A = 0x41. -/
theorem callback_oswrch_forwards_witness :
    callback_oswrch letter_machine =
      .next 0x1234 (pop_return { letter_machine with driver := [0x41] }) ∧
    callback_osasci letter_machine = callback_oswrch letter_machine :=
  ⟨(callback_oswrch_forwards letter_machine letter_machine_wf).1,
   (callback_oswrch_forwards letter_machine letter_machine_wf).2.1 (by decide)⟩

theorem synchronous_pull (m m1 : Machine) (h : m1.mpu_state = m.mpu_state) :
    synchronous m (pull_rts_target m1) := by
  unfold pull_rts_target
  split
  · trivial
  · exact h

theorem synchronous_return_x (x : Nat) (m : Machine) :
    synchronous m (callback_osbyte_return_x x m) :=
  synchronous_pull m _ rfl

theorem synchronous_return_u16 (value : Nat) (m : Machine) :
    synchronous m (callback_osbyte_return_u16 value m) :=
  synchronous_pull m _ rfl

theorem synchronous_read_vdu (m : Machine) :
    synchronous m (callback_osbyte_read_vdu_variable m) := by
  unfold callback_osbyte_read_vdu_variable
  dsimp only
  split
  · trivial
  · split
    · trivial
    · exact synchronous_pull m _ rfl

theorem synchronous_osbyte (c : Platform) (m : Machine) :
    synchronous m (callback_osbyte c m) := by
  unfold callback_osbyte
  repeat (first
    | exact synchronous_pull m _ rfl
    | exact synchronous_return_x _ m
    | exact synchronous_return_u16 _ m
    | exact synchronous_read_vdu m
    | trivial
    | split)

theorem synchronous_oscli (c : Platform) (m : Machine) :
    synchronous m (callback_oscli c m) := by
  unfold callback_oscli
  dsimp only
  split
  · trivial
  · split
    · rename_i h
      exact absurd h (skip_stars_ends _ _ 256 0 (by omega) (by omega))
    · trivial
    · split
      · rfl
      · rfl

theorem synchronous_osword (m : Machine) (ha : m.mpu_registers.a ≠ 0) :
    synchronous m (callback_osword m) := by
  unfold callback_osword callback_osword_read_io_memory
  rw [if_neg ha]
  split
  · dsimp only
    split
    · trivial
    · rfl
  · trivial

theorem synchronous_romsel (c : Platform) (data : Nat) (m : Machine) :
    synchronous m (callback_romsel_write c data m) := by
  unfold callback_romsel_write
  dsimp only
  split_ifs <;> trivial

/-- C15: `callback_osrdch` sets the suspend state to AwaitingCharacter and
suspends, `callback_osword` with A = 0 sets it to AwaitingLine and suspends,
and both leave the registers, the memory and everything else as they were.
Every other handler (OSWRCH, OSNEWL, OSASCI, OSBYTE, OSCLI, OSWORD with A not
0, the read of the escape flag, the write of the paging register, and the
three abort handlers) returns a value with the suspend state unchanged or is
fatal; the interrupt handler never suspends either. -/
theorem suspension_only_at_blocking_calls (c : Platform) (m : Machine)
    (address data : Nat) :
    callback_osrdch m = .suspend { m with mpu_state := .ms_osrdch_pending } ∧
    (m.mpu_registers.a = 0 →
      callback_osword m = .suspend { m with mpu_state := .ms_osword_input_line_pending }) ∧
    synchronous m (callback_oswrch m) ∧
    synchronous m (callback_osnewl m) ∧
    synchronous m (callback_osasci m) ∧
    synchronous m (callback_osbyte c m) ∧
    synchronous m (callback_oscli c m) ∧
    (m.mpu_registers.a ≠ 0 → synchronous m (callback_osword m)) ∧
    synchronous m (callback_read_escape_flag m) ∧
    synchronous m (callback_romsel_write c data m) ∧
    synchronous m (callback_abort_read address data m) ∧
    synchronous m (callback_abort_write address data m) ∧
    synchronous m (callback_abort_call address data m) ∧
    (∀ m1, callback_irq m ≠ .suspend m1) := by
  refine ⟨rfl, ?_, synchronous_pull m _ rfl, synchronous_pull m _ rfl, ?_,
    synchronous_osbyte c m, synchronous_oscli c m, synchronous_osword m, rfl,
    synchronous_romsel c data m, trivial, trivial, trivial, ?_⟩
  · intro ha
    unfold callback_osword
    rw [if_pos ha]
    rfl
  · unfold callback_osasci
    split
    · exact synchronous_pull m _ rfl
    · exact synchronous_pull m _ rfl
  · intro m1
    unfold callback_irq
    split
    · simp
    · dsimp only
      split <;> simp

/-- Witness of C15: OSWORD with A = 0 suspends, OSWORD with A = 5 does
not. -/
theorem suspension_only_at_blocking_calls_witness :
    callback_osword line_machine =
      .suspend { line_machine with mpu_state := .ms_osword_input_line_pending } ∧
    synchronous io_machine (callback_osword io_machine) :=
  ⟨(suspension_only_at_blocking_calls sample_platform line_machine 0 0).2.1 rfl,
   (suspension_only_at_blocking_calls sample_platform io_machine 0 0).2.2.2.2.2.2.2.1
     (by decide)⟩

/-- C16 (amended): OSBYTE with A equal to 0x03, 0x0f, 0x7c or 0x8a only pops
the return address: it returns the RTS target with S increased by 2 modulo
256 and with A, X, Y, the flags, the memory, the VDU table, the suspend state
and the driver output unchanged. OSBYTE with A equal to 0x7e does the same
except that it sets X to 0. -/
theorem callback_osbyte_noops (c : Platform) (m : Machine) (hwf : m.wf) :
    ((m.mpu_registers.a = 0x03 ∨ m.mpu_registers.a = 0x0f ∨ m.mpu_registers.a = 0x7c ∨
        m.mpu_registers.a = 0x8a) →
      callback_osbyte c m = .next (rts_target m) (pop_return m)) ∧
    (m.mpu_registers.a = 0x7e →
      callback_osbyte c m = .next (rts_target m)
        (pop_return { m with mpu_registers := { m.mpu_registers with x := 0 } })) := by
  have hpull := pull_rts_target_pop m hwf
  constructor
  · intro h
    unfold callback_osbyte
    rcases h with h | h | h | h <;> simp [h, hpull]
  · intro h
    unfold callback_osbyte callback_osbyte_return_x
    simp only [h]
    exact pull_rts_target_eq _ hwf.1.2.2.2.2.1 hwf.2

theorem escape_machine_wf : escape_machine.wf :=
  sample_machine_wf _ _ _ _ _ _ (by decide) (by decide) (by decide) (by decide) (by decide)

/-- Witness of C16: OSBYTE 0x7e with X = 1. -/
theorem callback_osbyte_noops_witness :
    callback_osbyte sample_platform escape_machine = .next (rts_target escape_machine)
      (pop_return { escape_machine with
        mpu_registers := { escape_machine.mpu_registers with x := 0 } }) :=
  (callback_osbyte_noops sample_platform escape_machine escape_machine_wf).2 rfl

/-- Counterexample to C16 as stated: OSBYTE 0x7e called with X = 1 returns
with X = 0. -/
theorem callback_osbyte_noops_counterexample :
    escape_machine.mpu_registers.a = 0x7e ∧ escape_machine.mpu_registers.x = 1 ∧
    (callback_osbyte sample_platform escape_machine).address = some 0x1234 ∧
    (callback_osbyte sample_platform escape_machine).machine.mpu_registers.x = 0 := by
  decide

/-- C17 (amended): OSWORD with A = 0x05 and YX other than 0xffff returns
0x900 and writes the seven bytes AD lo(src) hi(src) 8D lo(dest) hi(dest) 60
at 0x900..0x906, where src is the 16-bit value stored at YX and dest is
(YX + 4) mod 65536. Every memory byte outside 0x900..0x906 is unchanged, the
byte at dest is unchanged whenever dest is outside 0x900..0x906, and the
registers, the stack pointer and the rest of the machine are unchanged. -/
theorem callback_osword_read_io (m : Machine) (hwf : m.wf)
    (ha : m.mpu_registers.a = 0x05) (hyx : yx m.mpu_registers ≠ 0xffff) :
    ∃ mem1, callback_osword m = .next 0x900 { m with mpu_memory := mem1 } ∧
      read_bytes mem1 0x900 7 =
        [0xad, stored_u16 m.mpu_memory (yx m.mpu_registers) % 256,
          stored_u16 m.mpu_memory (yx m.mpu_registers) / 256,
          0x8d, (yx m.mpu_registers + 4) % 65536 % 256,
          (yx m.mpu_registers + 4) % 65536 / 256, 0x60] ∧
      (∀ a, (a < 0x900 ∨ 0x906 < a) → mem1 a = m.mpu_memory a) ∧
      (((yx m.mpu_registers + 4) % 65536 < 0x900 ∨ 0x906 < (yx m.mpu_registers + 4) % 65536) →
        mem1 ((yx m.mpu_registers + 4) % 65536) =
          m.mpu_memory ((yx m.mpu_registers + 4) % 65536)) := by
  have hlt : yx m.mpu_registers < 0xffff := by
    have : yx m.mpu_registers < 65536 := Nat.mod_lt _ (by norm_num)
    omega
  have hsrc : stored_u16 m.mpu_memory (yx m.mpu_registers) < 65536 := by
    have h0 := hwf.2 (yx m.mpu_registers)
    have h1 := hwf.2 (yx m.mpu_registers + 1)
    unfold stored_u16
    omega
  have hother : ∀ (code : List Nat), code.length = 7 → ∀ a, (a < 0x900 ∨ 0x906 < a) →
      write_bytes m.mpu_memory transient_code code a = m.mpu_memory a := by
    intro code hlen a h
    exact write_bytes_other _ _ _ _ (by rw [hlen]; unfold transient_code; omega)
  have hcall : ∃ code,
      code = [0xad, stored_u16 m.mpu_memory (yx m.mpu_registers) &&& 0xff,
        (stored_u16 m.mpu_memory (yx m.mpu_registers) >>> 8) &&& 0xff,
        0x8d, (yx m.mpu_registers + 4) % 65536 &&& 0xff,
        (((yx m.mpu_registers + 4) % 65536) >>> 8) &&& 0xff, 0x60] ∧
      callback_osword m = .next transient_code
        { m with mpu_memory := write_bytes m.mpu_memory transient_code code } := by
    refine ⟨_, rfl, ?_⟩
    unfold callback_osword callback_osword_read_io_memory
    rw [if_neg (by rw [ha]; decide), if_pos ha]
    dsimp only
    rw [mpu_read_u16_eq _ _ hlt (hwf.2 _) (hwf.2 _)]
  obtain ⟨code, hcode, hcall⟩ := hcall
  have hlen : code.length = 7 := by rw [hcode]; rfl
  rw [hcall]
  refine ⟨_, rfl, ?_, fun a h => hother code hlen a h, fun h => hother code hlen _ h⟩
  have hw := read_write_bytes code m.mpu_memory transient_code
  have h1 : stored_u16 m.mpu_memory (yx m.mpu_registers) / 256 % 256 =
      stored_u16 m.mpu_memory (yx m.mpu_registers) / 256 := Nat.mod_eq_of_lt (by omega)
  have h2 : (yx m.mpu_registers + 4) % 65536 / 256 % 256 =
      (yx m.mpu_registers + 4) % 65536 / 256 := Nat.mod_eq_of_lt (by omega)
  rw [hlen] at hw
  rw [show (0x900 : Nat) = transient_code from rfl, hw, hcode]
  simp [and_ff, shr_8, h1, h2]

/-- Counterexample to C17 as stated: with YX = 0x08fc, which is not 0xffff,
the destination YX + 4 is 0x0900, the first cell of the code buffer; the byte
at dest is 0 before the call and 0xad, the LDA opcode, after it. -/
theorem callback_osword_read_io_counterexample :
    io_overlap_machine.mpu_registers.a = 0x05 ∧
    yx io_overlap_machine.mpu_registers = 0x08fc ∧
    (yx io_overlap_machine.mpu_registers + 4) % 65536 = 0x0900 ∧
    io_overlap_machine.mpu_memory 0x0900 = 0 ∧
    (callback_osword io_overlap_machine).address = some 0x900 ∧
    (callback_osword io_overlap_machine).machine.mpu_memory 0x0900 = 0xad := by
  decide

theorem io_machine_wf : io_machine.wf :=
  sample_machine_wf _ _ _ _ _ _ (by decide) (by decide) (by decide) (by decide) (by decide)

/-- Witness of C17: the parameter block at 0x0070 names the source 0xfe34, and
the destination is 0x0074. -/
theorem callback_osword_read_io_witness :
    ∃ mem1, callback_osword io_machine = .next 0x900 { io_machine with mpu_memory := mem1 } ∧
      read_bytes mem1 0x900 7 = [0xad, 0x34, 0xfe, 0x8d, 0x74, 0x00, 0x60] ∧
      (∀ a, (a < 0x900 ∨ 0x906 < a) → mem1 a = io_machine.mpu_memory a) ∧
      (((0x74 : Nat) < 0x900 ∨ 0x906 < (0x74 : Nat)) →
        mem1 0x74 = io_machine.mpu_memory 0x74) :=
  callback_osword_read_io io_machine io_machine_wf rfl (by decide)

/-! ## The guest stack -/

theorem jsr_push_lt (m : Machine) (s0 t : Nat) (hmem : ∀ a, m.mpu_memory a < 256) (a : Nat) :
    (jsr_push m s0 t).mpu_memory a < 256 :=
  poke_lt _ _ _ (poke_lt _ _ _ hmem) a

theorem pull_rts_target_undoes_jsr (m : Machine) (s0 t : Nat) (hlo : 2 ≤ s0) (hhi : s0 < 256)
    (ht : t < 65536) (hmem : ∀ a, m.mpu_memory a < 256) :
    pull_rts_target (jsr_push m s0 t) =
      .next t { jsr_push m s0 t with
        mpu_registers := { (jsr_push m s0 t).mpu_registers with s := s0 } } := by
  have hs : (jsr_push m s0 t).mpu_registers.s = s0 - 2 := by
    show (s0 + 254) % 256 = s0 - 2
    omega
  rw [pull_rts_target_eq _ (by rw [hs]; omega) (jsr_push_lt m s0 t hmem), hs]
  have hv : (t + 65535) % 65536 < 65536 := Nat.mod_lt _ (by norm_num)
  have hlow : (jsr_push m s0 t).mpu_memory (0x101 + (s0 - 2)) = (t + 65535) % 65536 % 256 := by
    show poke _ (0x100 + (s0 + 255) % 256) _ (0x101 + (s0 - 2)) = _
    have : 0x101 + (s0 - 2) = 0x100 + (s0 + 255) % 256 := by omega
    rw [this, poke_same, and_ff]
    omega
  have hhigh : (jsr_push m s0 t).mpu_memory (0x101 + (s0 - 2) + 1) =
      (t + 65535) % 65536 / 256 := by
    show poke (poke _ (0x100 + s0) _) (0x100 + (s0 + 255) % 256) _ (0x101 + (s0 - 2) + 1) = _
    have : 0x101 + (s0 - 2) + 1 = 0x100 + s0 := by omega
    rw [this, poke_other _ _ _ _ (by omega), poke_same, shr_8]
    omega
  have htarget : (stored_u16 (jsr_push m s0 t).mpu_memory (0x101 + (s0 - 2)) + 1) % 65536 = t := by
    unfold stored_u16
    rw [hlow, hhigh]
    omega
  have hsp : (s0 - 2 + 2) % 256 = s0 := by omega
  rw [htarget, hsp]

/-- C18, evaluated at an input on which the code fails: a JSR executed with
the stack pointer 1 and the target 0x1234 stores the high byte 0x12 at 0x101
and the low byte 0x33 at 0x100 and leaves S = 0xff; `pull_rts_target` then
reads the cells 0x200 and 0x201 and returns 1, not 0x1234. -/
theorem pull_rts_target_stack_wrap :
    (jsr_push blank_machine 1 0x1234).mpu_memory 0x101 = 0x12 ∧
    (jsr_push blank_machine 1 0x1234).mpu_memory 0x100 = 0x33 ∧
    (jsr_push blank_machine 1 0x1234).mpu_registers.s = 0xff ∧
    (pull_rts_target (jsr_push blank_machine 1 0x1234)).address = some 1 ∧
    (pull_rts_target (jsr_push blank_machine 1 0x1234)).machine.mpu_registers.s = 1 := by
  decide

/-! ## Memory accesses of OSCLI -/

theorem skip_stars_reads_le (mem : Nat → Nat) (yx fuel y : Nat) (hy : y ≤ 255) (a : Nat)
    (ha : a ∈ skip_stars_reads mem yx fuel y) : a ≤ yx + 255 := by
  induction fuel generalizing y with
  | zero => simp [skip_stars_reads] at ha
  | succ fuel ih =>
    unfold skip_stars_reads at ha
    split at ha
    · split at ha
      · simp only [List.mem_singleton] at ha
        omega
      · rename_i hne
        simp only [List.mem_cons] at ha
        rcases ha with ha | ha
        · omega
        · exact ih ((y + 1) % 256) (by omega) ha
    · simp only [List.mem_singleton] at ha
      omega

theorem skip_stars_found_le (mem : Nat → Nat) (yx fuel y k : Nat) (hy : y ≤ 255)
    (h : skip_stars mem yx fuel y = .found k) : k ≤ 255 := by
  induction fuel generalizing y with
  | zero => simp [skip_stars] at h
  | succ fuel ih =>
    unfold skip_stars at h
    split at h
    · split at h
      · cases h
      · exact ih ((y + 1) % 256) (by omega) h
    · cases h
      exact hy

theorem memcmp_reads_lt (mem : Nat → Nat) (bytes : List Nat) (address a : Nat)
    (ha : a ∈ memcmp_reads mem address bytes) : a < address + bytes.length := by
  induction bytes generalizing address with
  | nil => simp [memcmp_reads] at ha
  | cons b bs ih =>
    unfold memcmp_reads at ha
    simp only [List.length_cons]
    split at ha
    · simp only [List.mem_cons] at ha
      rcases ha with ha | ha
      · omega
      · have := ih (address + 1) ha
        omega
    · simp only [List.mem_singleton] at ha
      omega

theorem oscli_accesses_in_bounds (m : Machine) (hyx : yx m.mpu_registers ≤ 0xfefc) (a : Nat)
    (ha : a ∈ oscli_accesses m) : a ≤ 0xffff := by
  unfold oscli_accesses at ha
  dsimp only at ha
  rw [if_neg (by omega)] at ha
  simp only [List.mem_append, List.mem_cons, List.mem_singleton, List.not_mem_nil,
    or_false] at ha
  rcases ha with (ha | ha) | ha
  · unfold os_text_pointer at ha
    omega
  · have := skip_stars_reads_le _ _ _ _ (by omega) a ha
    omega
  · split at ha
    · rename_i y hfound
      have hy := skip_stars_found_le _ _ _ _ _ (by omega) hfound
      simp only [List.mem_append] at ha
      rcases ha with ha | ha
      · have := memcmp_reads_lt _ _ _ _ ha
        simp only [keyword_basic, List.length_cons, List.length_nil] at this
        omega
      · split at ha
        · rw [List.mem_range'_1] at ha
          unfold transient_code at ha
          omega
        · rw [List.mem_range'_1] at ha
          unfold service_code at ha
          omega
    · simp at ha

/-- C19, evaluated at an input on which the code fails: with YX = 0xff00,
which passes the check, 255 stars at 0xff00..0xfffe and the letter B at
0xffff, the star loop ends with Y = 255 and the comparison with the keyword,
whose first byte matches, reads the index 0x10000, past the end of the
65536-byte memory image. -/
theorem callback_oscli_reads_past_memory :
    yx top_machine.mpu_registers ≤ 0xff00 ∧
    skip_stars (oscli_memory top_machine) (yx top_machine.mpu_registers) 256 0 = .found 255 ∧
    0x10000 ∈ oscli_accesses top_machine := by
  have hyx : yx top_machine.mpu_registers = 0xff00 := by decide
  have hmem : ∀ a, 0xff00 ≤ a → oscli_memory top_machine a = top_machine.mpu_memory a :=
    fun a ha => oscli_memory_other _ a (by omega)
  have hstar : ∀ i, i < 255 → oscli_memory top_machine (0xff00 + i) = 0x2a := by
    intro i hi
    rw [hmem _ (by omega)]
    show (if 0xff00 ≤ 0xff00 + i ∧ 0xff00 + i < 0xffff then 0x2a
      else if 0xff00 + i = 0xffff then 0x42 else 0) = 0x2a
    rw [if_pos (by omega)]
  have hB : oscli_memory top_machine (0xff00 + 255) = 0x42 := by
    rw [hmem _ (by omega)]
    rfl
  have hpast : oscli_memory top_machine (0xff00 + 255 + 1) = 0 := by
    rw [hmem _ (by omega)]
    rfl
  have hskip : skip_stars (oscli_memory top_machine) 0xff00 256 0 = .found 255 :=
    skip_stars_found _ _ 255 (by omega) hstar (by rw [hB]; decide) 256 0 (by omega) (by omega)
  refine ⟨by rw [hyx], by rw [hyx]; exact hskip, ?_⟩
  unfold oscli_accesses
  dsimp only
  rw [hyx, if_neg (by omega)]
  unfold oscli_memory at hskip hB hpast
  simp only [hskip]
  have hreads : memcmp_reads
      (poke (poke top_machine.mpu_memory os_text_pointer top_machine.mpu_registers.x)
        (os_text_pointer + 1) top_machine.mpu_registers.y) (0xff00 + 255) keyword_basic =
      [0xff00 + 255, 0xff00 + 255 + 1] := by
    simp only [memcmp_reads, keyword_basic]
    rw [if_pos hB, if_neg (by rw [hpast]; decide)]
  rw [hreads]
  simp

/-! ## The keyword of OSCLI -/

/-- C20 (amended): for YX <= 0xff00, with the bytes at YX read after the
handler has stored X and Y in the cells 0xf2 and 0xf3, exactly k <= 255
leading stars, and the five bytes after the stars lying inside the 64K
image: `callback_oscli` returns 0x900 with A = 1, X = 0, Y = 0 if and only if
these five bytes are B, A, S, I, C, whatever follows them; otherwise it
writes the service loop and returns 0xb00 with A = 4 and
X = `bank_editor_b`. -/
theorem callback_oscli_keyword (c : Platform) (m : Machine) (k : Nat)
    (hyx : yx m.mpu_registers ≤ 0xff00) (hk : k ≤ 255)
    (_hin : yx m.mpu_registers + k + 5 ≤ 0x10000)
    (hstars : read_bytes (oscli_memory m) (yx m.mpu_registers) k = List.replicate k 0x2a)
    (hend : oscli_memory m (yx m.mpu_registers + k) ≠ 0x2a) :
    ((∃ m1, callback_oscli c m = .next 0x900 m1 ∧ m1.mpu_registers.a = 1 ∧
        m1.mpu_registers.x = 0 ∧ m1.mpu_registers.y = 0) ↔
      read_bytes (oscli_memory m) (yx m.mpu_registers + k) 5 = keyword_basic) ∧
    (read_bytes (oscli_memory m) (yx m.mpu_registers + k) 5 ≠ keyword_basic →
      ∃ m1, callback_oscli c m = .next 0xb00 m1 ∧ m1.mpu_registers.a = 4 ∧
        m1.mpu_registers.x = bank_editor_b ∧
        read_bytes m1.mpu_memory 0xb00 32 = service_loop_code ++ bad_command ++ [0]) := by
  have hfound := callback_oscli_found c m k hyx hk hstars hend
  have hiff := memcmp_eq_iff (oscli_memory m) keyword_basic (yx m.mpu_registers + k)
  have hservice : read_bytes (oscli_memory m) (yx m.mpu_registers + k) 5 ≠ keyword_basic →
      ∃ m1, callback_oscli c m = .next 0xb00 m1 ∧ m1.mpu_registers.a = 4 ∧
        m1.mpu_registers.x = bank_editor_b ∧
        read_bytes m1.mpu_memory 0xb00 32 = service_loop_code ++ bad_command ++ [0] := by
    intro hword
    have hne : ¬ memcmp_eq (oscli_memory m) (yx m.mpu_registers + k) keyword_basic = true :=
      fun h => hword (hiff.1 h)
    rw [if_neg hne] at hfound
    exact ⟨_, hfound, rfl, rfl, service_code_written c m _ hfound⟩
  refine ⟨⟨?_, ?_⟩, hservice⟩
  · rintro ⟨m1, h, -⟩
    by_contra hword
    obtain ⟨m2, h2, -⟩ := hservice hword
    rw [h] at h2
    simp only [Outcome.next.injEq] at h2
    exact absurd h2.1 (by decide)
  · intro hword
    rw [hfound, if_pos (hiff.2 hword)]
    exact ⟨_, rfl, rfl, rfl, rfl⟩

/-- Witness of C20: a star, BASIC and the letters X, Y, Z at 0x0700 enter
the interpreter. -/
theorem callback_oscli_keyword_witness :
    ∃ m1, callback_oscli sample_platform basic_xyz_machine = .next 0x900 m1 ∧
      m1.mpu_registers.a = 1 ∧ m1.mpu_registers.x = 0 ∧ m1.mpu_registers.y = 0 :=
  (callback_oscli_keyword sample_platform basic_xyz_machine 1 (by decide) (by decide)
    (by decide) (by decide) (by decide)).1.2 (by decide)

/-- Counterexample to C20 as stated: YX = 0x00ef points at the letters
B, A, S, I, C with no star before them, the last two letters lying in the
cells 0xf2 and 0xf3. The handler stores X and Y there before the comparison,
writes the service loop and returns 0xb00 with A = 4. -/
theorem callback_oscli_keyword_counterexample :
    yx overlap_keyword_machine.mpu_registers ≤ 0xff00 ∧
    overlap_keyword_machine.mpu_memory (yx overlap_keyword_machine.mpu_registers) ≠ 0x2a ∧
    read_bytes overlap_keyword_machine.mpu_memory
      (yx overlap_keyword_machine.mpu_registers) 5 = keyword_basic ∧
    (callback_oscli sample_platform overlap_keyword_machine).address = some 0xb00 ∧
    (callback_oscli sample_platform overlap_keyword_machine).machine.mpu_registers.a = 4 := by
  decide

end Emulation
